import Mathlib

/-!
Verification development for the CRG email-discovery scraper (src/main.py).

The pure core of the program (validation, classification, scoring,
deduplication, frontier assembly, and the control flow of `scan_site`) is
embedded shallowly below.  Calls into host libraries (HTTP via `requests`,
HTML parsing via BeautifulSoup, the regex engine's `finditer`, XML sitemap
parsing) are modelled as an explicit environment of oracle functions, since
their results enter the pipeline as opaque data.  Python strings are
modelled on their ASCII fragment: `str.lower`, `str.strip` and the
case-insensitive regex classes are embedded for ASCII characters, which is
the alphabet the program's vocabularies and email grammar operate on.
-/

set_option maxRecDepth 8192

/-! ## Python string primitives -/

/-- Whitespace recognised by Python `str.strip()` (ASCII fragment). -/
def isPySpace (c : Char) : Bool :=
  c = ' ' || c = '\t' || c = '\n' || c = '\r' || c = '\x0b' || c = '\x0c'

/-- Python `str.strip()` on a character list. -/
def pyStripList (l : List Char) : List Char :=
  ((l.dropWhile isPySpace).reverse.dropWhile isPySpace).reverse

/-- Python `str.strip()`. -/
def pyStrip (s : String) : String := String.mk (pyStripList s.toList)

/-- Python `str.lower()` (ASCII fragment). -/
def pyLower (s : String) : String := String.mk (s.toList.map Char.toLower)

/-- Occurrence of `pat` as a contiguous sublist of `l` (Python `pat in s`). -/
def subAt (pat : List Char) : List Char → Bool
  | [] => pat.isEmpty
  | c :: rest => pat.isPrefixOf (c :: rest) || subAt pat rest

/-- Python `pat in s` substring test. -/
def strContains (s pat : String) : Bool := subAt pat.toList s.toList

/-- Python `s.endswith(pat)`. -/
def strEndsWith (s pat : String) : Bool := pat.toList.isSuffixOf s.toList

/-- Python `s.startswith(pat)`. -/
def strStartsWith (s pat : String) : Bool := pat.toList.isPrefixOf s.toList

/-- Python `s[:n]`. -/
def strTake (n : Nat) (s : String) : String := String.mk (s.toList.take n)

/-! ## Fixed vocabularies of the source (src/main.py lines 183-263) -/

def HIGH_VALUE_HINTS : List String :=
  ["partnership", "partner", "sponsor", "sponsorship",
   "businessdevelopment", "bizdev", "marketing", "communications",
   "comms", "brand", "outreach", "alliances", "strategic", "institutional",
   "investorrelations", "investor-relations", "ir", "corporate", "pr", "press"]

def MEDIUM_VALUE_HINTS : List String :=
  ["info", "hello", "contact", "enquiries", "inquiries", "connect"]

def LOW_VALUE_HINTS : List String :=
  ["support", "help", "careers", "jobs", "hr", "webmaster", "privacy",
   "legal", "security", "abuse", "dpo"]

def TRAP_LOCALPART_HINTS : List String :=
  ["abuse", "security", "privacy", "legal", "webmaster", "postmaster",
   "mailer-daemon", "noreply", "no-reply", "donotreply"]

def COMMON_FILE_EXTS : List String :=
  [".png", ".jpg", ".jpeg", ".webp", ".gif", ".svg", ".pdf", ".css", ".js", ".ico"]

def FREE_DOMAINS : List String :=
  ["gmail.com", "yahoo.com", "hotmail.com", "outlook.com", "live.com",
   "icloud.com", "proton.me", "protonmail.com"]

def EURO_GEOS : List String :=
  ["Europe", "Ireland", "Germany", "France", "Netherlands", "Switzerland",
   "Belgium", "Austria", "Denmark", "Norway", "Sweden", "Finland", "Italy",
   "Spain", "Portugal", "Poland"]

def SPONSOR_LANGUAGE : List String :=
  ["sponsor", "sponsorship", "partner", "partnership", "partners",
   "collaborate", "collaboration", "brand partnership", "media kit",
   "press kit", "advertise", "advertising", "work with us", "become a partner",
   "events partner", "strategic partnership"]

def ROLE_HINTS : List String :=
  ["head of partnerships", "partnerships manager", "partnership manager",
   "head of marketing", "marketing director", "brand director", "head of brand",
   "head of communications", "communications director", "pr director", "press office",
   "business development", "biz dev", "institutional sales", "client solutions",
   "investor relations", "corporate development", "strategic alliances"]

/-! ## EMAIL_RE fullmatch
`EMAIL_RE = [A-Z0-9._%+-]+@[A-Z0-9.-]+\.[A-Z]{2,}` with `re.IGNORECASE`,
embedded as an executable matcher over character lists.  Since `@` is in no
character class, a full match forces exactly one `@`; since the trailing
`[A-Z]{2,}` cannot contain a dot, the trailing group must start right after
the last dot of the domain part. -/

/-- Characters of the local-part class `[A-Z0-9._%+-]` (case-insensitive). -/
def isLocalChar (c : Char) : Bool :=
  c.isAlpha || c.isDigit || c = '.' || c = '_' || c = '%' || c = '+' || c = '-'

/-- Characters of the domain class `[A-Z0-9.-]` (case-insensitive). -/
def isDomChar (c : Char) : Bool :=
  c.isAlpha || c.isDigit || c = '.' || c = '-'

/-- Decidable test that a character is not the dot. -/
def neDot (c : Char) : Bool := c ≠ '.'

/-- Matches the `[A-Z0-9.-]+\.[A-Z]{2,}` tail of `EMAIL_RE`: the trailing
letter group must sit right after the last dot. -/
def domTailMatch (ds : List Char) : Bool :=
  match ds.reverse.dropWhile neDot with
  | c :: mrev =>
      c = '.' &&
      !mrev.isEmpty &&
      decide (2 ≤ (ds.reverse.takeWhile neDot).length) &&
      (ds.reverse.takeWhile neDot).all Char.isAlpha
  | [] => false

/-- Executable full match of `EMAIL_RE` on a character list. -/
def emailMatchL (l : List Char) : Bool :=
  match l.dropWhile isLocalChar with
  | c :: ds =>
      c = '@' &&
      !(l.takeWhile isLocalChar).isEmpty &&
      ds.all isDomChar &&
      domTailMatch ds
  | [] => false

/-- Full match of `EMAIL_RE` on a string. -/
def emailFullmatch (s : String) : Bool := emailMatchL s.toList

/-- The email grammar `localpart@domain.tld` as a declarative property:
this follows the spec wording and is proved equivalent to the executable
matcher below. -/
def EmailGrammar (l : List Char) : Prop :=
  ∃ loc mid tld : List Char,
    l = loc ++ '@' :: (mid ++ '.' :: tld) ∧
    loc ≠ [] ∧ (∀ c ∈ loc, isLocalChar c) ∧
    mid ≠ [] ∧ (∀ c ∈ mid, isDomChar c) ∧
    2 ≤ tld.length ∧ (∀ c ∈ tld, c.isAlpha)

/-! ## Validator / classifier (src/main.py lines 456-502) -/

/-- Embeds `is_valid_email` (src/main.py lines 456-464); `e` abbreviates
the source's stripped input. -/
def is_valid_email (email : String) : Bool :=
  if pyStrip email = "" then false
  else if COMMON_FILE_EXTS.any (fun ext => strEndsWith (pyLower (pyStrip email)) ext) then false
  else if strContains (pyStrip email) "/" || strContains (pyStrip email) "\\" then false
  else emailFullmatch (pyStrip email)

/-- Embeds `localpart` (src/main.py lines 467-471): the lower-cased part
before the first `@` (the whole string if no `@`). -/
def localpart (email : String) : String :=
  pyLower (String.mk (email.toList.takeWhile (fun c => c ≠ '@')))

/-- Embeds `classify_email_relevance` (src/main.py lines 474-482). -/
def classify_email_relevance (email : String) : String :=
  let lp := localpart email
  if HIGH_VALUE_HINTS.any (fun h => strContains lp h) then "High"
  else if LOW_VALUE_HINTS.any (fun h => strContains lp h) then "Low"
  else if MEDIUM_VALUE_HINTS.any (fun h => strContains lp h) then "Medium"
  else "Medium"

/-- Embeds `is_trap_email` (src/main.py lines 485-491). -/
def is_trap_email (email : String) : Bool :=
  let lp := localpart email
  if TRAP_LOCALPART_HINTS.contains lp then true
  else if TRAP_LOCALPART_HINTS.any (fun h => strContains lp h) then true
  else false

/-- Embeds `domain_match_bonus` (src/main.py lines 556-567).  The
`IndexError` of `email.split("@", 1)[1]` for an address without `@` is
caught by the source and yields 0. -/
def domain_match_bonus (email : String) (domain : String) : Int :=
  if '@' ∈ email.toList then
    let ed := pyLower (String.mk ((email.toList.dropWhile (fun c => c ≠ '@')).tail))
    let dom := pyLower domain
    if FREE_DOMAINS.contains ed then -10
    else if dom ≠ "" && (ed = dom || strEndsWith ed ("." ++ dom) || strEndsWith dom ("." ++ ed)) then 10
    else 0
  else 0

/-! ## Contact scorer (src/main.py lines 689-720) -/

/-- Embeds `sponsor_fit_score` (src/main.py lines 689-720).  The
sponsor-language hit count is a `Nat` (the source always passes a
non-negative running count); context score and domain bonus are integers. -/
def sponsor_fit_score (email_relevance org_type size_proxy geo_hint : String)
    (sponsor_lang_hits : Nat) (ctx_score dom_bonus : Int) : Int :=
  let base : Int :=
    if email_relevance = "High" then 35
    else if email_relevance = "Medium" then 20
    else if email_relevance = "Low" then 5
    else 15
  let org : Int :=
    if org_type = "Asset Manager" || org_type = "Bank" || org_type = "Fintech"
        || org_type = "Consulting" then 25
    else if org_type = "Media / Research" || org_type = "Education" then 12
    else 8
  let size : Int :=
    if size_proxy = "Large / Institutional" then 20
    else if size_proxy = "Mid-sized" then 12
    else if size_proxy = "Small" then 6
    else 8
  let geo : Int :=
    if geo_hint = "UK" then 8
    else if EURO_GEOS.contains geo_hint then 5
    else 2
  let score := base + org + size + min 15 ((sponsor_lang_hits : Int) * 3)
      + min 20 ctx_score + dom_bonus + geo
  max 0 (min 100 score)

/-- Clamping an integer to `[0, 100]` always lands in `[0, 100]`. -/
theorem clamp_mem (s : Int) : 0 ≤ max 0 (min 100 s) ∧ max 0 (min 100 s) ≤ 100 := by
  constructor
  · exact le_max_left 0 _
  · exact max_le (by norm_num) (min_le_left 100 s)

/-- C1: for every relevance label, org type, size proxy, geo hint,
non-negative sponsor-language hit count, context score and domain bonus
(including adversarial combinations), `sponsor_fit_score` returns an
integer in `[0, 100]`. -/
theorem sponsor_fit_score_bounded (rel org size geo : String) (hits : Nat)
    (ctx bonus : Int) :
    0 ≤ sponsor_fit_score rel org size geo hits ctx bonus ∧
      sponsor_fit_score rel org size geo hits ctx bonus ≤ 100 := by
  unfold sponsor_fit_score
  exact clamp_mem _

example : is_valid_email "jane@example.com" = true := by decide
example : is_valid_email "" = false := by decide
example : is_valid_email "jane@example.c" = false := by decide
example : is_valid_email "logo@2x.png" = false := by decide
example : is_valid_email " jane@example.com" = true := by decide
example : classify_email_relevance "partnerships@x.com" = "High" := by decide
example : classify_email_relevance "careers@x.com" = "Low" := by decide
example : classify_email_relevance "info@x.com" = "Medium" := by decide
example : is_trap_email "noreply@x.com" = true := by decide
example : is_trap_email "sales@x.com" = false := by decide
example : domain_match_bonus "a@gmail.com" "gmail.com" = -10 := by decide
example : domain_match_bonus "a@sub.x.com" "x.com" = 10 := by decide
example : sponsor_fit_score "High" "Asset Manager" "Large / Institutional" "UK" 100 40 10 = 100 := by decide

/-! ## Equivalence of the executable matcher with the declarative grammar -/

theorem takeWhile_append_of {α : Type _} (p : α → Bool) (a : α) (ha : p a = false)
    (l₂ : List α) :
    ∀ l₁ : List α, (∀ c ∈ l₁, p c = true) → (l₁ ++ a :: l₂).takeWhile p = l₁
  | [], _ => by simp [List.takeWhile_cons, ha]
  | b :: t, h => by
      have hb : p b = true := h b (by simp)
      have ih := takeWhile_append_of p a ha l₂ t (fun c hc => h c (by simp [hc]))
      simp [List.takeWhile_cons, hb, ih]

theorem dropWhile_append_of {α : Type _} (p : α → Bool) (a : α) (ha : p a = false)
    (l₂ : List α) :
    ∀ l₁ : List α, (∀ c ∈ l₁, p c = true) → (l₁ ++ a :: l₂).dropWhile p = a :: l₂
  | [], _ => by simp [List.dropWhile_cons, ha]
  | b :: t, h => by
      have hb : p b = true := h b (by simp)
      have ih := dropWhile_append_of p a ha l₂ t (fun c hc => h c (by simp [hc]))
      simp [List.dropWhile_cons, hb, ih]

theorem isAlpha_isDomChar {c : Char} (h : c.isAlpha = true) : isDomChar c = true := by
  simp [isDomChar, h]

theorem isAlpha_neDot {c : Char} (h : c.isAlpha = true) : neDot c = true := by
  have hc : ¬ c = '.' := by
    intro hc
    subst hc
    exact absurd h (by decide)
  simp [neDot, hc]

theorem domTailMatch_iff (ds : List Char) :
    domTailMatch ds = true ↔
      ∃ mid tld : List Char, ds = mid ++ '.' :: tld ∧ mid ≠ [] ∧
        2 ≤ tld.length ∧ (∀ c ∈ tld, c.isAlpha) ∧ (∀ c ∈ tld, neDot c) := by
  constructor
  · intro h
    unfold domTailMatch at h
    rcases hd : ds.reverse.dropWhile neDot with _ | ⟨c, mrev⟩
    · rw [hd] at h; simp at h
    · rw [hd] at h
      simp only [Bool.and_eq_true, decide_eq_true_eq] at h
      obtain ⟨⟨⟨hc, hmrev⟩, hlen⟩, halpha⟩ := h
      subst hc
      have hsplit := List.takeWhile_append_dropWhile (p := neDot) (l := ds.reverse)
      rw [hd] at hsplit
      refine ⟨mrev.reverse, (ds.reverse.takeWhile neDot).reverse, ?_, ?_, ?_, ?_, ?_⟩
      · have h2 : ds.reverse.reverse = (ds.reverse.takeWhile neDot ++ '.' :: mrev).reverse := by
          rw [hsplit]
        simpa [List.reverse_append] using h2
      · simpa using hmrev
      · simpa using hlen
      · intro c hc
        have := List.all_eq_true.mp halpha
        exact this c (List.mem_reverse.mp hc)
      · intro c hc
        exact List.mem_takeWhile_imp (List.mem_reverse.mp hc)
  · rintro ⟨mid, tld, rfl, hmid, hlen, halpha, hnedot⟩
    have hrev : (mid ++ '.' :: tld).reverse = tld.reverse ++ '.' :: mid.reverse := by
      simp [List.reverse_append]
    have htw : (mid ++ '.' :: tld).reverse.takeWhile neDot = tld.reverse := by
      rw [hrev]
      exact takeWhile_append_of neDot '.' (by simp [neDot]) mid.reverse tld.reverse
        (fun c hc => hnedot c (List.mem_reverse.mp hc))
    have hdw : (mid ++ '.' :: tld).reverse.dropWhile neDot = '.' :: mid.reverse := by
      rw [hrev]
      exact dropWhile_append_of neDot '.' (by simp [neDot]) mid.reverse tld.reverse
        (fun c hc => hnedot c (List.mem_reverse.mp hc))
    unfold domTailMatch
    rw [hdw, htw]
    simp only [Bool.and_eq_true, decide_eq_true_eq]
    refine ⟨⟨⟨trivial, by simpa using hmid⟩, by simpa using hlen⟩, ?_⟩
    rw [List.all_eq_true]
    intro c hc
    exact halpha c (List.mem_reverse.mp hc)

theorem emailMatchL_iff (l : List Char) : emailMatchL l = true ↔ EmailGrammar l := by
  constructor
  · intro h
    unfold emailMatchL at h
    rcases hd : l.dropWhile isLocalChar with _ | ⟨c, ds⟩
    · rw [hd] at h; simp at h
    · rw [hd] at h
      simp only [Bool.and_eq_true, decide_eq_true_eq] at h
      obtain ⟨⟨⟨hc, hloc⟩, hall⟩, hdom⟩ := h
      subst hc
      obtain ⟨mid, tld, hds, hmid, hlen, halpha, _⟩ := (domTailMatch_iff ds).mp hdom
      have hsplit := List.takeWhile_append_dropWhile (p := isLocalChar) (l := l)
      rw [hd] at hsplit
      refine ⟨l.takeWhile isLocalChar, mid, tld, ?_, by simpa using hloc, ?_, hmid, ?_,
        hlen, halpha⟩
      · rw [← hds]
        exact hsplit.symm
      · intro c hc
        exact List.mem_takeWhile_imp hc
      · intro c hc
        rw [List.all_eq_true] at hall
        exact hall c (by rw [hds]; exact List.mem_append_left _ hc)
  · rintro ⟨loc, mid, tld, rfl, hloc, hlocall, hmid, hmidall, hlen, halpha⟩
    have hat : isLocalChar '@' = false := by decide
    have htw := takeWhile_append_of isLocalChar '@' hat (mid ++ '.' :: tld) loc
      (fun c hc => hlocall c hc)
    have hdw := dropWhile_append_of isLocalChar '@' hat (mid ++ '.' :: tld) loc
      (fun c hc => hlocall c hc)
    unfold emailMatchL
    rw [hdw, htw]
    simp only [Bool.and_eq_true, decide_eq_true_eq]
    refine ⟨⟨⟨trivial, by simpa using hloc⟩, ?_⟩, ?_⟩
    · rw [List.all_eq_true]
      intro c hc
      rcases List.mem_append.mp hc with h1 | h2
      · exact hmidall c h1
      · rcases List.mem_cons.mp h2 with h3 | h4
        · subst h3; decide
        · exact isAlpha_isDomChar (halpha c h4)
    · rw [domTailMatch_iff]
      exact ⟨mid, tld, rfl, hmid, hlen, halpha, fun c hc => isAlpha_neDot (halpha c hc)⟩

/-! ## C4: is_valid_email against the claimed characterisation -/

theorem subAt_singleton (c : Char) : ∀ l : List Char, subAt [c] l = true ↔ c ∈ l
  | [] => by simp [subAt]
  | a :: rest => by
      have ih := subAt_singleton c rest
      simp [subAt, List.isPrefixOf, ih]

/-- C4 counterexample: on the input `" jane@example.com"` (leading space) the
source strips the whitespace and accepts, while the claimed characterisation
(full match of the email pattern, no blocked extension, no path separators,
on `S` itself) rejects, because the pattern admits no space. -/
theorem is_valid_email_claim_counterexample :
    is_valid_email " jane@example.com" = true ∧
      ¬ (EmailGrammar " jane@example.com".toList ∧
         (∀ ext ∈ COMMON_FILE_EXTS, strEndsWith (pyLower " jane@example.com") ext = false) ∧
         '/' ∉ " jane@example.com".toList ∧ '\\' ∉ " jane@example.com".toList) := by
  constructor
  · decide
  · intro h
    have hm := (emailMatchL_iff _).mpr h.1
    have hf : emailMatchL " jane@example.com".toList = false := by decide
    rw [hf] at hm
    exact Bool.false_ne_true hm

/-- C4 (amended): `is_valid_email S` holds exactly when the whitespace-stripped
form of `S` fully matches the email-shaped pattern (localpart@domain.tld,
2+ letter TLD, case-insensitive classes), does not end with a blocked
non-email file extension, and contains neither a slash nor a backslash. -/
theorem is_valid_email_iff (s : String) :
    is_valid_email s = true ↔
      (EmailGrammar (pyStrip s).toList ∧
       (∀ ext ∈ COMMON_FILE_EXTS, strEndsWith (pyLower (pyStrip s)) ext = false) ∧
       '/' ∉ (pyStrip s).toList ∧ '\\' ∉ (pyStrip s).toList) := by
  unfold is_valid_email
  by_cases h0 : pyStrip s = ""
  · rw [if_pos h0]
    simp only [Bool.false_eq_true, false_iff]
    intro hcon
    obtain ⟨⟨loc, mid, tld, heq, hloc, _⟩, _, _, _⟩ := hcon
    rw [h0] at heq
    simp at heq
  · rw [if_neg h0]
    by_cases h1 : COMMON_FILE_EXTS.any (fun ext => strEndsWith (pyLower (pyStrip s)) ext) = true
    · rw [if_pos h1]
      simp only [Bool.false_eq_true, false_iff]
      intro hcon
      rw [List.any_eq_true] at h1
      obtain ⟨ext, hmem, hext⟩ := h1
      rw [hcon.2.1 ext hmem] at hext
      exact Bool.false_ne_true hext
    · rw [if_neg h1]
      by_cases h2 : (strContains (pyStrip s) "/" || strContains (pyStrip s) "\\") = true
      · rw [if_pos h2]
        simp only [Bool.false_eq_true, false_iff]
        intro hcon
        have h2x : strContains (pyStrip s) "/" = true ∨ strContains (pyStrip s) "\\" = true := by
          simpa using h2
        rcases h2x with hs | hs
        · exact hcon.2.2.1 ((subAt_singleton _ _).mp hs)
        · exact hcon.2.2.2 ((subAt_singleton _ _).mp hs)
      · rw [if_neg h2]
        unfold emailFullmatch
        rw [emailMatchL_iff]
        constructor
        · intro hg
          refine ⟨hg, ?_, ?_, ?_⟩
          · intro ext hmem
            by_contra hne
            exact h1 (List.any_eq_true.mpr ⟨ext, hmem, by simpa using hne⟩)
          · intro hmem
            have hsc : strContains (pyStrip s) "/" = true := (subAt_singleton _ _).mpr hmem
            exact h2 (by simp [hsc])
          · intro hmem
            have hsc : strContains (pyStrip s) "\\" = true := (subAt_singleton _ _).mpr hmem
            exact h2 (by simp [hsc])
        · intro hcon
          exact hcon.1

/-! ## C7: ordered relevance classification -/

/-- The relevance classifier as the spec words it: three ordered hint sets,
High first, then Low, then Medium, defaulting to Medium. -/
def relevanceSpec (email : String) : String :=
  if ∃ h ∈ HIGH_VALUE_HINTS, strContains (localpart email) h = true then "High"
  else if ∃ h ∈ LOW_VALUE_HINTS, strContains (localpart email) h = true then "Low"
  else if ∃ h ∈ MEDIUM_VALUE_HINTS, strContains (localpart email) h = true then "Medium"
  else "Medium"

/-- C7: `classify_email_relevance` checks the lower-cased local part against
the High hints, then the Low hints, then the Medium hints, returning Medium
when no hint matches; in particular partnerships@x.com is High, careers@x.com
is Low and info@x.com is Medium. -/
theorem classify_email_relevance_ordered :
    (∀ e, classify_email_relevance e = relevanceSpec e) ∧
    classify_email_relevance "partnerships@x.com" = "High" ∧
    classify_email_relevance "careers@x.com" = "Low" ∧
    classify_email_relevance "info@x.com" = "Medium" := by
  refine ⟨fun e => ?_, by decide, by decide, by decide⟩
  by_cases h1 : ∃ h ∈ HIGH_VALUE_HINTS, strContains (localpart e) h = true
  · have b1 : HIGH_VALUE_HINTS.any (fun h => strContains (localpart e) h) = true :=
      List.any_eq_true.mpr (by simpa using h1)
    simp [classify_email_relevance, relevanceSpec, b1, h1]
  · have b1 : HIGH_VALUE_HINTS.any (fun h => strContains (localpart e) h) = false := by
      rw [Bool.eq_false_iff]
      intro hb
      exact h1 (by simpa using List.any_eq_true.mp hb)
    by_cases h2 : ∃ h ∈ LOW_VALUE_HINTS, strContains (localpart e) h = true
    · have b2 : LOW_VALUE_HINTS.any (fun h => strContains (localpart e) h) = true :=
        List.any_eq_true.mpr (by simpa using h2)
      simp [classify_email_relevance, relevanceSpec, b1, b2, h1, h2]
    · have b2 : LOW_VALUE_HINTS.any (fun h => strContains (localpart e) h) = false := by
        rw [Bool.eq_false_iff]
        intro hb
        exact h2 (by simpa using List.any_eq_true.mp hb)
      by_cases h3 : ∃ h ∈ MEDIUM_VALUE_HINTS, strContains (localpart e) h = true
      · have b3 : MEDIUM_VALUE_HINTS.any (fun h => strContains (localpart e) h) = true :=
          List.any_eq_true.mpr (by simpa using h3)
        simp [classify_email_relevance, relevanceSpec, b1, b2, b3, h1, h2, h3]
      · have b3 : MEDIUM_VALUE_HINTS.any (fun h => strContains (localpart e) h) = false := by
          rw [Bool.eq_false_iff]
          intro hb
          exact h3 (by simpa using List.any_eq_true.mp hb)
        simp [classify_email_relevance, relevanceSpec, b1, b2, b3, h1, h2, h3]

/-! ## C6: domain match bonus -/

/-- The domain part of an address: everything after the first `@`, when an
`@` is present. -/
def emailDomain (email : String) : Option String :=
  if '@' ∈ email.toList then
    some (String.mk ((email.toList.dropWhile (fun c => c ≠ '@')).tail))
  else none

/-- Proper-subdomain test used by the bonus: `a` ends with `"." ++ b`. -/
def subdomainOf (a b : String) : Bool := strEndsWith a ("." ++ b)

/-- The claim C6 as written: the domain-match branch is stated first, the
free-mail branch second. -/
def claimedDomainBonus (email domain : String) : Int :=
  match emailDomain email with
  | none => 0
  | some ed0 =>
      if pyLower domain ≠ "" ∧ (pyLower ed0 = pyLower domain ∨
          subdomainOf (pyLower ed0) (pyLower domain) = true ∨
          subdomainOf (pyLower domain) (pyLower ed0) = true) then 10
      else if pyLower ed0 ∈ FREE_DOMAINS then -10
      else 0

/-- The bonus with the source's actual precedence: free-mail check first,
then the (sub)domain-match check, else 0. -/
def domainBonusSpec (email domain : String) : Int :=
  match emailDomain email with
  | none => 0
  | some ed0 =>
      if pyLower ed0 ∈ FREE_DOMAINS then -10
      else if pyLower domain ≠ "" ∧ (pyLower ed0 = pyLower domain ∨
          subdomainOf (pyLower ed0) (pyLower domain) = true ∨
          subdomainOf (pyLower domain) (pyLower ed0) = true) then 10
      else 0

/-- C6 counterexample: for `a@gmail.com` scanned on the site domain
`gmail.com` the email domain equals the site domain, so the claim as
ordered says +10, but the source checks the free-mail list first and
returns -10. -/
theorem domain_match_bonus_counterexample :
    domain_match_bonus "a@gmail.com" "gmail.com" = -10 ∧
      claimedDomainBonus "a@gmail.com" "gmail.com" = 10 ∧
      domain_match_bonus "a@gmail.com" "gmail.com" ≠
        claimedDomainBonus "a@gmail.com" "gmail.com" := by
  refine ⟨by decide, by decide, by decide⟩

/-- C6 (amended): `domain_match_bonus` returns -10 when the email's domain is
a known free-mail provider; otherwise +10 when the email's domain equals the
site's domain or either is a subdomain of the other (case-insensitively, and
only for a non-empty site domain); otherwise 0 — the free-mail check takes
precedence over the domain match. -/
theorem domain_match_bonus_spec (email domain : String) :
    domain_match_bonus email domain = domainBonusSpec email domain := by
  unfold domain_match_bonus domainBonusSpec emailDomain subdomainOf
  by_cases h : '@' ∈ email.toList
  · simp only [h, ite_true]
    norm_num [or_assoc]
  · have h2 : '@' ∉ email.data := h
    simp [h, h2]

/-! ## Deobfuscator (src/main.py lines 427-438) -/

/-- Library boundary: `html.unescape`, modelled for the semicolon-terminated
named references exercised here (amp, lt, gt, quot).  As in CPython,
scanning continues after the replacement, so nested forms such as
`"&amp;amp;"` decode by one level per pass. -/
def pyUnescapeAux : Nat → List Char → List Char
  | _, [] => []
  | 0, l => l
  | fuel + 1, c :: rest =>
      if c = '&' then
        if ['a', 'm', 'p', ';'].isPrefixOf rest then '&' :: pyUnescapeAux fuel (rest.drop 4)
        else if ['l', 't', ';'].isPrefixOf rest then '<' :: pyUnescapeAux fuel (rest.drop 3)
        else if ['g', 't', ';'].isPrefixOf rest then '>' :: pyUnescapeAux fuel (rest.drop 3)
        else if ['q', 'u', 'o', 't', ';'].isPrefixOf rest then '"' :: pyUnescapeAux fuel (rest.drop 5)
        else '&' :: pyUnescapeAux fuel rest
      else c :: pyUnescapeAux fuel rest

/-- Entry point of the unescape model; the fuel starts at the input length,
which suffices because every step consumes at least one character. -/
def pyUnescape (l : List Char) : List Char := pyUnescapeAux l.length l

/-- Case-insensitive match of a fixed lower-case word at the head of `l`;
returns the remainder on success. -/
def matchWordCI : List Char → List Char → Option (List Char)
  | [], l => some l
  | _ :: _, [] => none
  | w :: ws, c :: cs => if c.toLower = w then matchWordCI ws cs else none

/-- Tries the pattern `\s*OP\s*WORD\s*CL\s*` at the head of `l` (the shape of
the bracketed at/dot rules); on success returns the remainder after the
greedily consumed trailing whitespace. -/
def matchBracketAt (op cl : Char) (w : List Char) (l : List Char) : Option (List Char) :=
  match l.dropWhile isPySpace with
  | c :: l2 =>
      if c = op then
        match matchWordCI w (l2.dropWhile isPySpace) with
        | some l3 =>
            match l3.dropWhile isPySpace with
            | c2 :: l4 => if c2 = cl then some (l4.dropWhile isPySpace) else none
            | [] => none
        | none => none
      else none
  | [] => none

/-- Tries the pattern `\s+WORD\s+` at the head of `l`. -/
def matchSpacedWordAt (w : List Char) (l : List Char) : Option (List Char) :=
  match l with
  | c :: _ =>
      if isPySpace c then
        match matchWordCI w (l.dropWhile isPySpace) with
        | some l3 =>
            match l3 with
            | c2 :: _ => if isPySpace c2 then some (l3.dropWhile isPySpace) else none
            | [] => none
        | none => none
      else none
  | [] => none

/-- One pass of `re.sub` for a single-character replacement: scan left to
right, at each position try the matcher; on a match emit the replacement and
continue after the consumed text, otherwise copy one character.  The fuel
starts at the input length, which suffices because a successful match always
consumes at least one character. -/
def scanSub (m : List Char → Option (List Char)) (rep : Char) : Nat → List Char → List Char
  | _, [] => []
  | 0, l => l
  | fuel + 1, c :: rest =>
      match m (c :: rest) with
      | some rem => rep :: scanSub m rep fuel rem
      | none => c :: scanSub m rep fuel rest

/-- `re.sub` of a pattern matcher against a character list. -/
def reSub (m : List Char → Option (List Char)) (rep : Char) (l : List Char) : List Char :=
  scanSub m rep l.length l

/-- Embeds `deobfuscate_text` (src/main.py lines 427-438): HTML-entity
decoding, the six ordered at/dot substitutions, then zero-width-character
removal. -/
def deobfuscate_text (text : String) : String :=
  if text = "" then ""
  else
    let t0 := pyUnescape text.toList
    let t1 := reSub (matchBracketAt '[' ']' ['a', 't']) '@' t0
    let t2 := reSub (matchBracketAt '(' ')' ['a', 't']) '@' t1
    let t3 := reSub (matchSpacedWordAt ['a', 't']) '@' t2
    let t4 := reSub (matchBracketAt '[' ']' ['d', 'o', 't']) '.' t3
    let t5 := reSub (matchBracketAt '(' ')' ['d', 'o', 't']) '.' t4
    let t6 := reSub (matchSpacedWordAt ['d', 'o', 't']) '.' t5
    String.mk (t6.filter (fun c => c ≠ '​' && c ≠ '‌' && c ≠ '‍'))

example : deobfuscate_text "jane [at] example [dot] com" = "jane@example.com" := by decide
example : deobfuscate_text "a(AT)b(DOT)co" = "a@b.co" := by decide
example : deobfuscate_text "x at y" = "x@y" := by decide

/-- C5 counterexample: deobfuscation is not idempotent on every string — one
pass decodes the HTML character reference `"&amp;amp;"` to `"&amp;"` (the
replacement is not rescanned), and a second pass decodes that further to
`"&"`, exactly as CPython's `html.unescape` does. -/
theorem deobfuscate_text_not_idempotent :
    deobfuscate_text "&amp;amp;" = "&amp;" ∧
      deobfuscate_text (deobfuscate_text "&amp;amp;") = "&" ∧
      deobfuscate_text (deobfuscate_text "&amp;amp;") ≠ deobfuscate_text "&amp;amp;" := by
  refine ⟨by decide, by decide, by decide⟩

/-- C5 (amended): the worked example holds, and deobfuscation is idempotent
on already-clean text: every fixed point of `deobfuscate_text` (in
particular any already-deobfuscated plain address) stays fixed under a
second application. -/
theorem deobfuscate_text_example_and_clean_idempotent :
    deobfuscate_text "jane [at] example [dot] com" = "jane@example.com" ∧
      ∀ x : String, deobfuscate_text x = x →
        deobfuscate_text (deobfuscate_text x) = deobfuscate_text x := by
  refine ⟨by decide, ?_⟩
  intro x hx
  rw [hx]
  exact hx

/-- Witness for the amended C5: the example's output is clean, and a second
pass fixes it. -/
theorem deobfuscate_text_clean_idempotent_witness :
    deobfuscate_text (deobfuscate_text "jane@example.com") =
      deobfuscate_text "jane@example.com" :=
  deobfuscate_text_example_and_clean_idempotent.2 "jane@example.com" (by decide)

/-! ## Cloudflare email decoding (src/main.py lines 441-453) -/

/-- Value of a hexadecimal digit. -/
def hexVal (c : Char) : Option Nat :=
  if '0' ≤ c ∧ c ≤ '9' then some (c.toNat - 48)
  else if 'a' ≤ c ∧ c ≤ 'f' then some (c.toNat - 87)
  else if 'A' ≤ c ∧ c ≤ 'F' then some (c.toNat - 55)
  else none

/-- Library boundary: `bytes.fromhex` — two hex digits per byte, spaces
allowed between bytes, anything else an error. -/
def hexDecode : List Char → Option (List Nat)
  | [] => some []
  | c :: rest =>
      if c = ' ' then hexDecode rest
      else
        match rest with
        | [] => none
        | c2 :: rest2 =>
            match hexVal c, hexVal c2 with
            | some hi, some lo => (hexDecode rest2).map (fun bs => (16 * hi + lo) :: bs)
            | _, _ => none

/-- UTF-8 continuation byte test. -/
def isCont (b : Nat) : Bool := 128 ≤ b && b ≤ 191

/-- Library boundary: `bytes.decode("utf-8", errors="ignore")`.  Well-formed
1-4 byte sequences decode to their code point, invalid bytes are skipped;
the proofs below exercise the single-byte (ASCII) arm.  The fuel starts at
the input length, which suffices because every step consumes at least one
byte. -/
def utf8DecodeIgnoreAux : Nat → List Nat → List Char
  | _, [] => []
  | 0, _ => []
  | fuel + 1, b :: rest =>
      if b ≤ 127 then Char.ofNat b :: utf8DecodeIgnoreAux fuel rest
      else if 194 ≤ b && b ≤ 223 then
        match rest with
        | b2 :: rest2 =>
            if isCont b2 then
              Char.ofNat ((b - 192) * 64 + (b2 - 128)) :: utf8DecodeIgnoreAux fuel rest2
            else utf8DecodeIgnoreAux fuel rest
        | [] => []
      else if 224 ≤ b && b ≤ 239 then
        match rest with
        | b2 :: b3 :: rest3 =>
            if (if b = 224 then 160 ≤ b2 && b2 ≤ 191
                else if b = 237 then 128 ≤ b2 && b2 ≤ 159
                else isCont b2) && isCont b3 then
              Char.ofNat ((b - 224) * 4096 + (b2 - 128) * 64 + (b3 - 128)) ::
                utf8DecodeIgnoreAux fuel rest3
            else utf8DecodeIgnoreAux fuel rest
        | _ => []
      else if 240 ≤ b && b ≤ 244 then
        match rest with
        | b2 :: b3 :: b4 :: rest4 =>
            if (if b = 240 then 144 ≤ b2 && b2 ≤ 191
                else if b = 244 then 128 ≤ b2 && b2 ≤ 143
                else isCont b2) && isCont b3 && isCont b4 then
              Char.ofNat ((b - 240) * 262144 + (b2 - 128) * 4096 + (b3 - 128) * 64 +
                  (b4 - 128)) :: utf8DecodeIgnoreAux fuel rest4
            else utf8DecodeIgnoreAux fuel rest
        | _ => []
      else utf8DecodeIgnoreAux fuel rest

/-- Entry point of the UTF-8 ignore-errors decoder model. -/
def utf8DecodeIgnore (bs : List Nat) : List Char := utf8DecodeIgnoreAux bs.length bs

/-- Embeds `decode_cfemail` (src/main.py lines 441-453): strip, require at
least four characters, hex-decode, XOR every byte after the first with the
first byte, decode as UTF-8 ignoring errors, and keep the result only when
it contains both `@` and `.`; every failure path yields `none`. -/
def decode_cfemail (cfhex : String) : Option String :=
  if (pyStrip cfhex).length < 4 then none
  else
    match hexDecode (pyStrip cfhex).toList with
    | some (key :: rest) =>
        if '@' ∈ (String.mk (utf8DecodeIgnore (rest.map (fun b => b ^^^ key)))).toList ∧
            '.' ∈ (String.mk (utf8DecodeIgnore (rest.map (fun b => b ^^^ key)))).toList then
          some (String.mk (utf8DecodeIgnore (rest.map (fun b => b ^^^ key))))
        else none
    | _ => none

/-- Lower-case hex digit of a value below 16. -/
def hexDig (d : Nat) : Char :=
  if d < 10 then Char.ofNat (48 + d) else Char.ofNat (87 + d)

/-- Two-digit lower-case hex encoding of a byte. -/
def hexByte (b : Nat) : List Char := [hexDig (b / 16), hexDig (b % 16)]

/-- The `data-cfemail` payload for key byte `k` and plaintext `p`: the hex
encoding of `k` followed by the hex encoding of each plaintext byte XOR-ed
with `k` (the claim's hand-built fixture). -/
def encodeCfemail (k : Nat) (p : String) : String :=
  String.mk (hexByte k ++ (p.toList.map Char.toNat).flatMap (fun b => hexByte (b ^^^ k)))

theorem hexVal_hexDig : ∀ d : Nat, d < 16 → hexVal (hexDig d) = some d := by decide

theorem hexDig_ne_space {d : Nat} (hd : d < 16) : hexDig d ≠ ' ' := by
  revert hd
  revert d
  decide

theorem hexDecode_cons_byte (b : Nat) (hb : b < 256) (rest : List Char) :
    hexDecode (hexByte b ++ rest) = (hexDecode rest).map (fun bs => b :: bs) := by
  have h1 : b / 16 < 16 := by omega
  have h2 : b % 16 < 16 := Nat.mod_lt _ (by norm_num)
  have e1 := hexVal_hexDig (b / 16) h1
  have e2 := hexVal_hexDig (b % 16) h2
  have hs := hexDig_ne_space h1
  have hval : 16 * (b / 16) + b % 16 = b := by omega
  simp only [hexByte, List.cons_append, List.nil_append, hexDecode, hs, ite_false,
    if_neg hs, e1, e2, hval]
  rfl

/-- XOR with a byte-sized key keeps byte values byte-sized. -/
theorem xor_lt_256 {b k : Nat} (hb : b < 256) (hk : k < 256) : b ^^^ k < 256 := by
  have := Nat.xor_lt_two_pow (n := 8) (by simpa using hb) (by simpa using hk)
  simpa using this

/-- Hex-decoding the concatenated two-digit encodings of bytes below 256
recovers exactly those bytes. -/
theorem hexDecode_flatMap (k : Nat) (hk : k < 256) :
    ∀ bs : List Nat, (∀ b ∈ bs, b < 256) →
      hexDecode (bs.flatMap (fun b => hexByte (b ^^^ k))) =
        some (bs.map (fun b => b ^^^ k)) := by
  intro bs
  induction bs with
  | nil => intro _; simp [hexDecode]
  | cons b rest ih =>
      intro h
      have hb : b < 256 := h b (by simp)
      have hxor : b ^^^ k < 256 := xor_lt_256 hb hk
      rw [List.flatMap_cons, hexDecode_cons_byte _ hxor, ih (fun x hx => h x (by simp [hx]))]
      simp

theorem dropWhile_eq_self_of {α : Type _} (p : α → Bool) :
    ∀ l : List α, (∀ c ∈ l, p c = false) → l.dropWhile p = l
  | [], _ => rfl
  | a :: t, h => by simp [List.dropWhile_cons, h a (by simp)]

theorem pyStripList_eq_self (l : List Char) (h : ∀ c ∈ l, isPySpace c = false) :
    pyStripList l = l := by
  unfold pyStripList
  rw [dropWhile_eq_self_of _ l h]
  rw [dropWhile_eq_self_of _ l.reverse (fun c hc => h c (List.mem_reverse.mp hc))]
  exact List.reverse_reverse l

theorem hexDig_not_space : ∀ d : Nat, d < 16 → isPySpace (hexDig d) = false := by decide

theorem utf8Ascii : ∀ (cs : List Char) (fuel : Nat), cs.length ≤ fuel →
    (∀ c ∈ cs, c.toNat < 128) →
    utf8DecodeIgnoreAux fuel (cs.map Char.toNat) = cs
  | [], fuel, _, _ => by cases fuel <;> rfl
  | c :: cs, 0, h, _ => by rw [List.length_cons] at h; omega
  | c :: cs, fuel + 1, h, hall => by
      have hc : c.toNat ≤ 127 := by
        have := hall c (by simp)
        omega
      have ih := utf8Ascii cs fuel (by rw [List.length_cons] at h; omega)
        (fun x hx => hall x (by simp [hx]))
      simp [utf8DecodeIgnoreAux, hc, ih, Char.ofNat_toNat]

theorem flatMap_hexByte_length (k : Nat) :
    ∀ bs : List Nat, (bs.flatMap (fun b => hexByte (b ^^^ k))).length = 2 * bs.length
  | [] => rfl
  | b :: rest => by
      rw [List.flatMap_cons, List.length_append, flatMap_hexByte_length k rest]
      simp [hexByte]
      omega

/-- C10: XOR round trip of the Cloudflare email encoding.  First part: for
every key byte `k` and every ASCII plaintext containing both `@` and `.`,
decoding the payload built from the hex of `k` followed by the hex of each
plaintext byte XOR-ed with `k` returns exactly that plaintext.  Second part:
whatever `decode_cfemail` accepts contains both `@` and `.` (everything else
is rejected as `none`). -/
theorem decode_cfemail_roundtrip :
    (∀ k : Nat, k < 256 → ∀ p : String, (∀ c ∈ p.toList, c.toNat < 128) →
      '@' ∈ p.toList → '.' ∈ p.toList →
      decode_cfemail (encodeCfemail k p) = some p) ∧
    (∀ s d : String, decode_cfemail s = some d → '@' ∈ d.toList ∧ '.' ∈ d.toList) := by
  constructor
  · intro k hk p hascii hat hdot
    have hbs256 : ∀ b ∈ p.toList.map Char.toNat, b < 256 := by
      intro b hb
      obtain ⟨c, hc, rfl⟩ := List.mem_map.mp hb
      have := hascii c hc
      omega
    have hLchars : ∀ c ∈ (encodeCfemail k p).toList, isPySpace c = false := by
      intro c hc
      have hc2 : c ∈ hexByte k ++ (p.toList.map Char.toNat).flatMap (fun b => hexByte (b ^^^ k)) := hc
      rcases List.mem_append.mp hc2 with h1 | h2
      · rcases List.mem_cons.mp h1 with h3 | h4
        · subst h3; exact hexDig_not_space _ (by omega)
        · rcases List.mem_cons.mp h4 with h5 | h6
          · subst h5
            exact hexDig_not_space _ (Nat.mod_lt _ (by norm_num))
          · simp at h6
      · obtain ⟨b, hbmem, hbc⟩ := List.mem_flatMap.mp h2
        have hxk : b ^^^ k < 256 := xor_lt_256 (hbs256 b hbmem) hk
        rcases List.mem_cons.mp hbc with h3 | h4
        · subst h3; exact hexDig_not_space _ (by omega)
        · rcases List.mem_cons.mp h4 with h5 | h6
          · subst h5
            exact hexDig_not_space _ (Nat.mod_lt _ (by norm_num))
          · simp at h6
    have hstrip : pyStrip (encodeCfemail k p) = encodeCfemail k p := by
      show String.mk (pyStripList (encodeCfemail k p).toList) = encodeCfemail k p
      rw [pyStripList_eq_self _ hLchars]
      rfl
    have hplen : 1 ≤ p.toList.length := by
      cases hp : p.toList with
      | nil => rw [hp] at hat; simp at hat
      | cons a t => simp
    have hlen : ¬ (pyStrip (encodeCfemail k p)).length < 4 := by
      rw [hstrip]
      show ¬ (encodeCfemail k p).toList.length < 4
      have : (encodeCfemail k p).toList.length =
          2 + ((p.toList.map Char.toNat).flatMap (fun b => hexByte (b ^^^ k))).length := by
        show (hexByte k ++ _).length = _
        rw [List.length_append]
        rfl
      rw [this, flatMap_hexByte_length]
      have hmaplen : (p.toList.map Char.toNat).length = p.toList.length := by simp
      omega
    have hdec : hexDecode (encodeCfemail k p).toList =
        some (k :: (p.toList.map Char.toNat).map (fun b => b ^^^ k)) := by
      show hexDecode (hexByte k ++ (p.toList.map Char.toNat).flatMap (fun b => hexByte (b ^^^ k))) = _
      rw [hexDecode_cons_byte k hk, hexDecode_flatMap k hk _ hbs256]
      rfl
    have hxor2 : (((p.toList.map Char.toNat).map (fun b => b ^^^ k)).map (fun b => b ^^^ k)) =
        p.toList.map Char.toNat := by
      rw [List.map_map]
      have hcomp : ((fun b => b ^^^ k) ∘ fun b => b ^^^ k) = id := by
        funext b
        exact Nat.xor_cancel_right k b
      rw [hcomp, List.map_id]
    have hdecoded :
        String.mk (utf8DecodeIgnore
          (((p.toList.map Char.toNat).map (fun b => b ^^^ k)).map (fun b => b ^^^ k))) = p := by
      rw [hxor2]
      unfold utf8DecodeIgnore
      rw [utf8Ascii p.toList _ (by simp) hascii]
      rfl
    unfold decode_cfemail
    rw [if_neg hlen, hstrip, hdec]
    show (if '@' ∈ (String.mk (utf8DecodeIgnore _)).toList ∧
        '.' ∈ (String.mk (utf8DecodeIgnore _)).toList then _ else _) = _
    rw [hdecoded]
    rw [if_pos ⟨hat, hdot⟩]
  · intro s d h
    unfold decode_cfemail at h
    by_cases hlen : (pyStrip s).length < 4
    · rw [if_pos hlen] at h
      exact absurd h (by simp)
    · rw [if_neg hlen] at h
      split at h
      · split at h
        · rename_i hg
          cases h
          exact hg
        · exact absurd h (by simp)
      · exact absurd h (by simp)

/-- Witness for C10: the round trip at key byte 0x2B on a concrete address,
and the guard applied to that accepted decoding. -/
theorem decode_cfemail_roundtrip_witness :
    decode_cfemail (encodeCfemail 43 "jane@example.com") = some "jane@example.com" ∧
      '@' ∈ "jane@example.com".toList ∧ '.' ∈ "jane@example.com".toList := by
  have h1 := decode_cfemail_roundtrip.1 43 (by omega) "jane@example.com"
    (by decide) (by decide) (by decide)
  exact ⟨h1, decode_cfemail_roundtrip.2 _ _ h1⟩

/-! ## URL helpers (src/main.py lines 284-344, 580-604) -/

/-- Splits `l` at the first occurrence of `pat`, returning the parts before
and after it. -/
def splitAtSub (pat : List Char) : List Char → Option (List Char × List Char)
  | [] => if pat.isEmpty then some ([], []) else none
  | c :: rest =>
      if pat.isPrefixOf (c :: rest) then some ([], (c :: rest).drop pat.length)
      else (splitAtSub pat rest).map (fun pr => (c :: pr.1, pr.2))

/-- Delimiter ending the network-location component. -/
def isNetlocEnd (c : Char) : Bool := c = '/' || c = '?' || c = '#'

/-- Library boundary: `urllib.parse.urlparse(url).netloc` for the URL shapes
the scanner handles — the text between the first `"://"` and the next `/`,
`?` or `#`; empty when no `"://"` is present. -/
def netlocList (l : List Char) : List Char :=
  match splitAtSub [':', '/', '/'] l with
  | some pr => pr.2.takeWhile (fun c => !isNetlocEnd c)
  | none => []

/-- Embeds `domain_of` (src/main.py lines 293-297): the lower-cased netloc. -/
def domain_of (url : String) : String := pyLower (String.mk (netlocList url.toList))

/-- Embeds `same_domain` (src/main.py lines 300-301). -/
def same_domain (a b : String) : Bool := domain_of a = domain_of b

/-- Library boundary: `urlparse(url).path` for the scanner's URL shapes —
after the netloc for `scheme://host/...`, the whole string otherwise, in
both cases stopping at `?` or `#`. -/
def pathList (l : List Char) : List Char :=
  match splitAtSub [':', '/', '/'] l with
  | some pr =>
      (pr.2.dropWhile (fun c => !isNetlocEnd c)).takeWhile (fun c => c ≠ '?' && c ≠ '#')
  | none => l.takeWhile (fun c => c ≠ '?' && c ≠ '#')

/-- The path component of a URL as a string. -/
def pathOf (url : String) : String := String.mk (pathList url.toList)

/-- Embeds `normalise_url` (src/main.py lines 284-290). -/
def normalise_url (u : String) : String :=
  if pyStrip u = "" then ""
  else if strStartsWith (pyStrip u) "http://" || strStartsWith (pyStrip u) "https://" then
    pyStrip u
  else "https://" ++ pyStrip u

/-- Embeds `build_base` (src/main.py lines 589-591): `f"{scheme}://{netloc}"`
with `urlparse` lower-casing the scheme. -/
def build_base (url : String) : String :=
  match splitAtSub [':', '/', '/'] url.toList with
  | some pr =>
      pyLower (String.mk pr.1) ++ "://" ++ String.mk (pr.2.takeWhile (fun c => !isNetlocEnd c))
  | none => "://"

/-- Embeds `guess_page_type` (src/main.py lines 326-344): ordered keyword
precedence over the lower-cased path. -/
def guess_page_type (url : String) : String :=
  let p := pyLower (pathOf url)
  if ["partner", "partnership", "sponsor", "sponsorship", "advertis", "media-kit",
      "press-kit"].any (fun k => strContains p k) then "Partnerships"
  else if strContains p "investor" || strContains p "/ir" then "Investor Relations"
  else if strContains p "contact" then "Contact"
  else if strContains p "about" then "About"
  else if strContains p "team" || strContains p "people" then "Team"
  else if strContains p "careers" || strContains p "jobs" then "Careers"
  else if strContains p "privacy" || strContains p "terms" || strContains p "legal" ||
      strContains p "imprint" || strContains p "impressum" then "Legal"
  else if p = "" || p = "/" then "Homepage"
  else "Other"

/-- The TLD-to-region table (src/main.py lines 248-254), in insertion order. -/
def TLD_GEO : List (String × String) :=
  [(".uk", "UK"), (".ie", "Ireland"), (".de", "Germany"), (".fr", "France"),
   (".nl", "Netherlands"), (".it", "Italy"), (".es", "Spain"), (".se", "Sweden"),
   (".no", "Norway"), (".dk", "Denmark"), (".ch", "Switzerland"), (".be", "Belgium"),
   (".at", "Austria"), (".pl", "Poland"), (".pt", "Portugal"), (".fi", "Finland"),
   (".eu", "Europe"), (".com", "Global / Unknown"), (".org", "Global / Unknown")]

/-- Embeds `geo_hint_from_domain` (src/main.py lines 304-309): first table
entry whose TLD the lower-cased domain ends with, else "Global / Unknown". -/
def geo_hint_from_domain (dom : String) : String :=
  match TLD_GEO.find? (fun pr => strEndsWith (pyLower dom) pr.1) with
  | some pr => pr.2
  | none => "Global / Unknown"

/-! ## Org profiler (src/main.py lines 374-424, 570-577) -/

/-- The organisation-type keyword table (src/main.py lines 205-231), in
insertion order. -/
def ORG_TYPE_KEYWORDS : List (String × List String) :=
  [("Asset Manager",
    ["asset management", "investment management", "portfolio", "aum",
     "fund", "funds", "hedge fund", "private equity", "credit", "fixed income",
     "wealth management", "institutional clients", "asset manager"]),
   ("Bank",
    ["bank", "banking", "commercial bank", "investment bank", "retail bank",
     "capital markets", "treasury", "lending", "deposit"]),
   ("Fintech",
    ["fintech", "payments", "api", "digital bank", "neobank", "crypto",
     "blockchain", "trading platform", "brokerage", "risk platform", "saas"]),
   ("Consulting",
    ["consulting", "advisory", "strategy", "transformation",
     "professional services", "management consulting"]),
   ("Media / Research",
    ["research", "insights", "analysis", "newsletter", "publication",
     "press", "media", "journalism"]),
   ("Education",
    ["university", "college", "school", "institute", "students",
     "academic", "alumni"])]

/-- Embeds `infer_org_type` (src/main.py lines 374-384); the Python floats
are modelled as exact rationals.  A category replaces the running best only
with strictly more keyword hits, so the first maximum wins. -/
def infer_org_type (text : String) : String × ℚ :=
  let t := pyLower text
  let best := ORG_TYPE_KEYWORDS.foldl
    (fun best pr =>
      let hits := pr.2.countP (fun k => strContains t k)
      if hits > best.2 then (pr.1, hits) else best)
    ("Corporate / Other", 0)
  if best.1 = "Corporate / Other" then (best.1, 1/4)
  else (best.1, min (19/20 : ℚ) (7/20 + (3/25) * (best.2 : ℚ)))

/-- Embeds `infer_size_proxy` (src/main.py lines 387-406); the two signal
flags come from the scan loop's page-type observations. -/
def infer_size_proxy (hasCareers hasTeam : Bool) (text : String) : String × ℚ :=
  let t := pyLower text
  let hasGlobal := ["global", "worldwide", "offices", "our offices",
    "international"].any (fun w => strContains t w)
  let hasAum := strContains t "aum" || strContains t "assets under management"
  let hasClients := strContains t "clients" || strContains t "institutional"
  let score := (if hasCareers then 2 else 0) + (if hasTeam then 1 else 0) +
      (if hasGlobal then 2 else 0) + (if hasAum then 2 else 0) +
      (if hasClients then 1 else 0)
  if score ≥ 6 then ("Large / Institutional", 4/5)
  else if score ≥ 3 then ("Mid-sized", 13/20)
  else ("Small", 11/20)

/-- Embeds `sponsor_language_score` (src/main.py lines 409-411). -/
def sponsor_language_score (text : String) : Nat :=
  SPONSOR_LANGUAGE.countP (fun w => strContains (pyLower text) w)

/-- Stable insertion into a lexicographically sorted list of strings. -/
def insertStr (x : String) : List String → List String
  | [] => [x]
  | y :: ys => if x ≤ y then x :: y :: ys else y :: insertStr x ys

/-- Python `sorted` on strings (code-point lexicographic). -/
def sortStrs : List String → List String
  | [] => []
  | x :: xs => insertStr x (sortStrs xs)

/-- Embeds `extract_role_hints` (src/main.py lines 570-577): the role
phrases found in the lower-cased text, de-duplicated, sorted, first eight,
comma-joined. -/
def extract_role_hints (text : String) : String :=
  String.intercalate ", "
    ((sortStrs ((ROLE_HINTS.filter (fun r => strContains (pyLower text) r)).dedup)).take 8)

/-- Embeds `reason_string` (src/main.py lines 723-733). -/
def reason_string (email_relevance page_type : String) (ctx_score dom_bonus : Int) : String :=
  String.intercalate "; "
    ([email_relevance ++ " relevance", "found on " ++ page_type ++ " page"]
      ++ (if ctx_score ≥ 12 then ["strong sponsor context"]
          else if ctx_score ≥ 6 then ["moderate sponsor context"] else [])
      ++ (if dom_bonus > 0 then ["matches company domain"]
          else if dom_bonus < 0 then ["likely personal/free email"] else []))

example : domain_of "https://Sub.Example.COM/path?q=1" = "sub.example.com" := by decide
example : guess_page_type "https://x.com/contact" = "Contact" := by decide
example : guess_page_type "https://x.com" = "Homepage" := by decide
example : guess_page_type "https://x.com/our-partners" = "Partnerships" := by decide
example : geo_hint_from_domain "firm.co.uk" = "UK" := by decide
example : build_base "HTTPS://x.com/a/b" = "https://x.com" := by decide

/-! ## Frontier builder (src/main.py lines 580-604, 845-862) -/

def GUESS_PATHS : List String :=
  ["/partnerships", "/partners", "/partner", "/sponsorship", "/sponsor", "/sponsors",
   "/media", "/press", "/advertise", "/advertising", "/brand", "/marketing",
   "/contact", "/contact-us", "/about", "/about-us", "/team", "/people",
   "/investor-relations", "/ir", "/institutional", "/corporate",
   "/contact/", "/about/", "/team/", "/partners/", "/partnerships/"]

/-- Library boundary: `urljoin(base, path)` for a base of the
`scheme://host` shape produced by `build_base` and an absolute path is
their concatenation. -/
def urljoinRoot (base path : String) : String := base ++ path

/-- First-seen-order de-duplication with an explicit seen set, as the
source's loops write it. -/
def dedupAux {α : Type _} [DecidableEq α] : List α → List α → List α
  | _, [] => []
  | seen, x :: xs =>
      if x ∈ seen then dedupAux seen xs else x :: dedupAux (x :: seen) xs

/-- First-seen-order de-duplication of a list. -/
def dedupKeepFirst {α : Type _} [DecidableEq α] (l : List α) : List α := dedupAux [] l

/-- Embeds `guess_key_pages` (src/main.py lines 594-604): the base URL, the
fixed guess paths resolved against it, first occurrences kept. -/
def guess_key_pages (base_url : String) : List String :=
  dedupKeepFirst (base_url :: GUESS_PATHS.map (fun p => urljoinRoot base_url p))

/-- The intent keywords of the sitemap filter (src/main.py line 853). -/
def INTENT_KEYWORDS : List String :=
  ["partner", "sponsor", "sponsorship", "advertis", "media", "press", "brand",
   "marketing", "investor", "institutional", "contact", "about", "team"]

/-- The sitemap-derived candidates of `scan_site` (src/main.py lines
850-855): when sitemap use is on and the sitemap fetch produced URLs, those
whose lower-cased path contains an intent keyword, capped at 25. -/
def sitemapTargets (useSitemap : Bool) (smUrls : List String) : List String :=
  if useSitemap then
    if smUrls ≠ [] then
      (smUrls.filter
        (fun u => INTENT_KEYWORDS.any (fun k => strContains (pyLower (pathOf u)) k))).take 25
    else []
  else []

/-- The concatenated candidate sources of `scan_site` (src/main.py lines
845-855): guessed key pages, then the keyword-filtered homepage links (only
when the homepage produced text), then the sitemap candidates. -/
def scanTargets (base homeHtml : String) (homeLinks smUrls : List String)
    (useSitemap : Bool) : List String :=
  guess_key_pages base
    ++ (if homeHtml ≠ "" then homeLinks else [])
    ++ sitemapTargets useSitemap smUrls

/-- The final frontier loop of `scan_site` (src/main.py lines 857-862):
keep the first occurrence of each URL that passes the predicate, carrying
the seen set exactly as the source does. -/
def dedupFilterAux (p : String → Bool) : List String → List String → List String
  | _, [] => []
  | seen, x :: xs =>
      if x ∉ seen ∧ p x = true then x :: dedupFilterAux p (x :: seen) xs
      else dedupFilterAux p seen xs

/-- The frontier `scan_site` iterates over: same-domain targets, first
occurrences only. -/
def finalTargets (base : String) (targets : List String) : List String :=
  dedupFilterAux (fun u => same_domain base u) [] targets

theorem dedupFilterAux_eq_filter (p : String → Bool) :
    ∀ (l seen : List String), dedupFilterAux p seen l = dedupAux seen (l.filter p)
  | [], _ => rfl
  | x :: xs, seen => by
      by_cases hp : p x = true
      · by_cases hs : x ∈ seen
        · simp [dedupFilterAux, dedupAux, hp, hs, List.filter_cons,
            dedupFilterAux_eq_filter p xs seen]
        · simp [dedupFilterAux, dedupAux, hp, hs, List.filter_cons,
            dedupFilterAux_eq_filter p xs (x :: seen)]
      · simp [dedupFilterAux, List.filter_cons, hp,
          dedupFilterAux_eq_filter p xs seen]

theorem mem_dedupFilterAux (p : String → Bool) :
    ∀ (l seen : List String) (x : String), x ∈ dedupFilterAux p seen l → p x = true := by
  intro l
  induction l with
  | nil => intro seen x hx; simp [dedupFilterAux] at hx
  | cons a as ih =>
      intro seen x hx
      unfold dedupFilterAux at hx
      by_cases hc : a ∉ seen ∧ p a = true
      · rw [if_pos hc] at hx
        rcases List.mem_cons.mp hx with h1 | h2
        · subst h1; exact hc.2
        · exact ih _ x h2
      · rw [if_neg hc] at hx
        exact ih _ x hx

/-- C9: the frontier of candidate page URLs is the concatenation of the
fixed guess-path list, the keyword-filtered homepage links and (when
sitemap use is enabled) the filtered sitemap URLs, in that order,
de-duplicated preserving first-seen order over the same-domain candidates;
and every candidate returned for fetching is on the base URL's domain
(hence shares its registrable domain). -/
theorem scan_frontier_spec (base homeHtml : String) (homeLinks smUrls : List String)
    (useSitemap : Bool) :
    finalTargets base (scanTargets base homeHtml homeLinks smUrls useSitemap) =
      dedupKeepFirst ((scanTargets base homeHtml homeLinks smUrls useSitemap).filter
        (fun u => same_domain base u)) ∧
    ∀ u ∈ finalTargets base (scanTargets base homeHtml homeLinks smUrls useSitemap),
      domain_of u = domain_of base := by
  constructor
  · exact dedupFilterAux_eq_filter _ _ []
  · intro u hu
    have hp := mem_dedupFilterAux _ _ [] u hu
    exact (of_decide_eq_true hp).symm

/-- Witness for C9 at a concrete site: the contact guess page is in the
frontier and is on the base domain. -/
theorem scan_frontier_spec_witness :
    domain_of "https://x.com/contact" = domain_of "https://x.com" :=
  (scan_frontier_spec "https://x.com" "" [] [] false).2 "https://x.com/contact" (by decide)

/-! ## Deduplicator / ranker (src/main.py lines 940-981) -/

/-- A scored contact row as assembled in `scan_site`'s enrichment step
(src/main.py lines 960-969). -/
structure ScoredRow where
  email : String
  relevance : String
  page_url : String
  page_type : String
  context : String
  context_score : Int
  domain_bonus : Int
  org_type : String
  size_proxy : String
  geo_hint : String
  sponsor_language_hits : Nat
  sponsor_fit_score : Int
  reason : String
  deriving DecidableEq, Repr

/-- The page-type ranking of the dedup block (src/main.py lines 940-943),
with the `.get` default of 0. -/
def page_type_rank (pt : String) : Int :=
  if pt = "Partnerships" then 6 else if pt = "Investor Relations" then 6
  else if pt = "Contact" then 5 else if pt = "About" then 3
  else if pt = "Team" then 2 else if pt = "Homepage" then 1
  else if pt = "Other" then 0 else if pt = "Legal" then -2
  else if pt = "Careers" then -2 else 0

/-- The relevance ranking (src/main.py line 944), with the `.get` default
of 1. -/
def rel_rank (rel : String) : Int :=
  if rel = "High" then 3 else if rel = "Medium" then 2
  else if rel = "Low" then 1 else 1

/-- The collision key `fitScore*10 + pageTypeRank + relevanceRank`
(src/main.py lines 975-976). -/
def compositeKey (r : ScoredRow) : Int :=
  r.sponsor_fit_score * 10 + page_type_rank r.page_type + rel_rank r.relevance

/-- Lookup in the insertion-ordered association list modelling the dedup
dict. -/
def lookupRow : List (String × ScoredRow) → String → Option ScoredRow
  | [], _ => none
  | (k, v) :: rest, key => if k = key then some v else lookupRow rest key

/-- In-place update of the first binding of `key`, keeping dict order (a
Python dict keeps a re-assigned key at its original position). -/
def updateRow : List (String × ScoredRow) → String → ScoredRow → List (String × ScoredRow)
  | [], _, _ => []
  | (k, v) :: rest, key, r =>
      if k = key then (k, r) :: rest else (k, v) :: updateRow rest key r

/-- One iteration of the dedup loop (src/main.py lines 946-978): first
occurrence inserts; a collision keeps the entry with the strictly greater
composite key (ties keep the incumbent). -/
def dedupStep (m : List (String × ScoredRow)) (row : ScoredRow) : List (String × ScoredRow) :=
  match lookupRow m (pyLower row.email) with
  | none => m ++ [(pyLower row.email, row)]
  | some cur =>
      if compositeKey row > compositeKey cur then updateRow m (pyLower row.email) row
      else m

/-- The dedup dict after all found rows. -/
def dedupFold (rows : List ScoredRow) : List (String × ScoredRow) :=
  rows.foldl dedupStep []

/-- Stable insertion by descending fit score. -/
def insertByScore (r : ScoredRow) : List ScoredRow → List ScoredRow
  | [] => [r]
  | y :: ys =>
      if r.sponsor_fit_score ≥ y.sponsor_fit_score then r :: y :: ys
      else y :: insertByScore r ys

/-- Python's stable `list.sort(key=..., reverse=True)` as a stable insertion
sort by descending fit score. -/
def sortByScoreDesc : List ScoredRow → List ScoredRow
  | [] => []
  | x :: xs => insertByScore x (sortByScoreDesc xs)

/-- The dedup-then-sort block of `scan_site` (src/main.py lines 946-981). -/
def dedupAndRank (rows : List ScoredRow) : List ScoredRow :=
  sortByScoreDesc ((dedupFold rows).map Prod.snd)

theorem lookupRow_none_iff :
    ∀ (m : List (String × ScoredRow)) (k : String),
      lookupRow m k = none ↔ k ∉ m.map Prod.fst
  | [], k => by simp [lookupRow]
  | (a, b) :: rest, k => by
      by_cases h : a = k
      · simp [lookupRow, h]
      · simp [lookupRow, h, lookupRow_none_iff rest k, Ne.symm h]

theorem lookupRow_some_mem :
    ∀ (m : List (String × ScoredRow)) (k : String) (v : ScoredRow),
      lookupRow m k = some v → (k, v) ∈ m
  | [], k, v => by simp [lookupRow]
  | (a, b) :: rest, k, v => by
      by_cases h : a = k
      · subst h
        intro hv
        have hb : b = v := by simpa [lookupRow] using hv
        subst hb
        simp
      · simp only [lookupRow, if_neg h]
        intro hl
        exact List.mem_cons_of_mem _ (lookupRow_some_mem rest k v hl)

theorem updateRow_keys :
    ∀ (m : List (String × ScoredRow)) (k : String) (r : ScoredRow),
      (updateRow m k r).map Prod.fst = m.map Prod.fst
  | [], _, _ => rfl
  | (a, b) :: rest, k, r => by
      by_cases h : a = k
      · simp [updateRow, h]
      · simp [updateRow, h, updateRow_keys rest k r]

theorem mem_updateRow :
    ∀ (m : List (String × ScoredRow)) (k : String) (r : ScoredRow) (p : String × ScoredRow),
      p ∈ updateRow m k r → p = (k, r) ∨ p ∈ m
  | [], k, r, p => by simp [updateRow]
  | (a, b) :: rest, k, r, p => by
      by_cases h : a = k
      · subst h
        simp only [updateRow, if_pos rfl]
        intro hp
        rcases List.mem_cons.mp hp with h1 | h2
        · exact Or.inl h1
        · exact Or.inr (List.mem_cons_of_mem _ h2)
      · simp only [updateRow, if_neg h]
        intro hp
        rcases List.mem_cons.mp hp with h1 | h2
        · exact Or.inr (by simp [h1])
        · rcases mem_updateRow rest k r p h2 with h3 | h4
          · exact Or.inl h3
          · exact Or.inr (List.mem_cons_of_mem _ h4)

theorem updateRow_mem_of_ne :
    ∀ (m : List (String × ScoredRow)) (k : String) (r : ScoredRow) (p : String × ScoredRow),
      p ∈ m → p.1 ≠ k → p ∈ updateRow m k r
  | [], _, _, _ => by simp
  | (a, b) :: rest, k, r, p => by
      intro hp hne
      by_cases h : a = k
      · subst h
        simp only [updateRow, if_pos rfl]
        rcases List.mem_cons.mp hp with h1 | h2
        · exact absurd (by rw [h1]) hne
        · exact List.mem_cons_of_mem _ h2
      · simp only [updateRow, if_neg h]
        rcases List.mem_cons.mp hp with h1 | h2
        · exact h1 ▸ List.mem_cons_self _ _
        · exact List.mem_cons_of_mem _ (updateRow_mem_of_ne rest k r p h2 hne)

theorem updateRow_mem_self :
    ∀ (m : List (String × ScoredRow)) (k : String) (r : ScoredRow),
      k ∈ m.map Prod.fst → (k, r) ∈ updateRow m k r
  | [], k, r => by simp
  | (a, b) :: rest, k, r => by
      intro hk
      by_cases h : a = k
      · subst h
        simp [updateRow]
      · simp only [updateRow, if_neg h]
        refine List.mem_cons_of_mem _ (updateRow_mem_self rest k r ?_)
        simp only [List.map_cons, List.mem_cons] at hk
        rcases hk with h1 | h2
        · exact absurd h1.symm h
        · exact h2

theorem mem_of_key_eq :
    ∀ (m : List (String × ScoredRow)), (m.map Prod.fst).Nodup →
      ∀ (k : String) (v : ScoredRow) (p : String × ScoredRow),
        (k, v) ∈ m → p ∈ m → p.1 = k → p = (k, v)
  | [], _, k, v, p => by simp
  | (a, b) :: rest, hnd, k, v, p => by
      intro hkv hp hpk
      simp only [List.map_cons, List.nodup_cons] at hnd
      obtain ⟨hna, hndr⟩ := hnd
      rcases List.mem_cons.mp hkv with h1 | h2
      · rcases List.mem_cons.mp hp with h3 | h4
        · rw [h3, h1]
        · exfalso
          have hmem : p.1 ∈ rest.map Prod.fst := List.mem_map.mpr ⟨p, h4, rfl⟩
          rw [hpk] at hmem
          have hak : k = a := congrArg Prod.fst h1
          rw [hak] at hmem
          exact hna hmem
      · rcases List.mem_cons.mp hp with h3 | h4
        · exfalso
          have hmem : k ∈ rest.map Prod.fst := List.mem_map.mpr ⟨(k, v), h2, rfl⟩
          have hpa : p.1 = a := congrArg Prod.fst h3
          have hka : k = a := by rw [← hpk, hpa]
          rw [hka] at hmem
          exact hna hmem
        · exact mem_of_key_eq rest hndr k v p h2 h4 hpk

/-- Invariant of the dedup dict over the processed prefix of the rows: keys
are distinct lower-cased addresses of their entries, every entry comes from
a processed row and carries the maximal composite key for its address, and
every processed address owns an entry. -/
def DedupInv (processed : List ScoredRow) (m : List (String × ScoredRow)) : Prop :=
  (m.map Prod.fst).Nodup ∧
  (∀ p ∈ m, p.1 = pyLower p.2.email) ∧
  (∀ p ∈ m, p.2 ∈ processed) ∧
  (∀ p ∈ m, ∀ r ∈ processed, pyLower r.email = p.1 → compositeKey r ≤ compositeKey p.2) ∧
  (∀ r ∈ processed, pyLower r.email ∈ m.map Prod.fst)

theorem mem_updateRow_nodup :
    ∀ (m : List (String × ScoredRow)), (m.map Prod.fst).Nodup →
      ∀ (k : String) (r : ScoredRow) (p : String × ScoredRow), p ∈ updateRow m k r →
        (p = (k, r) ∧ k ∈ m.map Prod.fst) ∨ (p ∈ m ∧ p.1 ≠ k)
  | [], _, k, r, p => by simp [updateRow]
  | (a, b) :: rest, hnd, k, r, p => by
      intro hp
      simp only [List.map_cons, List.nodup_cons] at hnd
      obtain ⟨hna, hndr⟩ := hnd
      by_cases h : a = k
      · subst h
        simp only [updateRow, if_pos rfl] at hp
        rcases List.mem_cons.mp hp with h1 | h2
        · exact Or.inl ⟨h1, by simp⟩
        · refine Or.inr ⟨List.mem_cons_of_mem _ h2, ?_⟩
          intro hpk
          have hmem : p.1 ∈ rest.map Prod.fst := List.mem_map.mpr ⟨p, h2, rfl⟩
          rw [hpk] at hmem
          exact hna hmem
      · simp only [updateRow, if_neg h] at hp
        rcases List.mem_cons.mp hp with h1 | h2
        · refine Or.inr ⟨by simp [h1], ?_⟩
          rw [h1]
          exact h
        · rcases mem_updateRow_nodup rest hndr k r p h2 with ⟨h3, h4⟩ | ⟨h3, h4⟩
          · exact Or.inl ⟨h3, by simp [h4]⟩
          · exact Or.inr ⟨List.mem_cons_of_mem _ h3, h4⟩

theorem dedupStep_inv (proc : List ScoredRow) (m : List (String × ScoredRow))
    (row : ScoredRow) (h : DedupInv proc m) :
    DedupInv (proc ++ [row]) (dedupStep m row) := by
  obtain ⟨hnd, hkey, hfrom, hmax, hcover⟩ := h
  unfold dedupStep
  rcases hl : lookupRow m (pyLower row.email) with _ | cur
  · -- first occurrence: append a fresh binding
    have hnotin : pyLower row.email ∉ m.map Prod.fst := (lookupRow_none_iff m _).mp hl
    refine ⟨?_, ?_, ?_, ?_, ?_⟩
    · simp only [List.map_append, List.map_cons, List.map_nil]
      rw [List.nodup_append]
      exact ⟨hnd, List.nodup_singleton _, by simpa using fun h => hnotin h⟩
    · intro p hp
      rcases List.mem_append.mp hp with h1 | h2
      · exact hkey p h1
      · simp at h2
        rw [h2]
    · intro p hp
      rcases List.mem_append.mp hp with h1 | h2
      · exact List.mem_append_left _ (hfrom p h1)
      · simp at h2
        rw [h2]
        simp
    · intro p hp r hr hre
      rcases List.mem_append.mp hp with h1 | h2
      · rcases List.mem_append.mp hr with h3 | h4
        · exact hmax p h1 r h3 hre
        · exfalso
          simp at h4
          rw [h4] at hre
          rw [hre] at hnotin
          exact hnotin (List.mem_map.mpr ⟨p, h1, rfl⟩)
      · simp at h2
        rcases List.mem_append.mp hr with h3 | h4
        · exfalso
          have hp1 : p.1 = pyLower row.email := by rw [h2]
          have hmem : pyLower row.email ∈ m.map Prod.fst := by
            rw [← hp1, ← hre]
            exact hcover r h3
          exact hnotin hmem
        · simp at h4
          rw [h4, h2]
    · intro r hr
      rcases List.mem_append.mp hr with h1 | h2
      · exact List.mem_map.mpr
          (match List.mem_map.mp (hcover r h1) with
           | ⟨p, hp, hpe⟩ => ⟨p, List.mem_append_left _ hp, hpe⟩)
      · simp at h2
        rw [h2]
        simp
  · -- collision with the current entry `cur`
    have hcurmem : (pyLower row.email, cur) ∈ m := lookupRow_some_mem m _ cur hl
    show DedupInv (proc ++ [row])
      (if compositeKey row > compositeKey cur then updateRow m (pyLower row.email) row else m)
    by_cases hgt : compositeKey row > compositeKey cur
    · rw [if_pos hgt]
      refine ⟨?_, ?_, ?_, ?_, ?_⟩
      · rw [updateRow_keys]
        exact hnd
      · intro p hp
        rcases mem_updateRow_nodup m hnd _ row p hp with ⟨h1, _⟩ | ⟨h1, _⟩
        · rw [h1]
        · exact hkey p h1
      · intro p hp
        rcases mem_updateRow_nodup m hnd _ row p hp with ⟨h1, _⟩ | ⟨h1, _⟩
        · rw [h1]
          simp
        · exact List.mem_append_left _ (hfrom p h1)
      · intro p hp r hr hre
        rcases mem_updateRow_nodup m hnd _ row p hp with ⟨h1, _⟩ | ⟨h1, hpk⟩
        · -- p is the fresh binding carrying `row`
          rcases List.mem_append.mp hr with h3 | h4
          · rw [h1]
            rw [h1] at hre
            have hc := hmax (pyLower row.email, cur) hcurmem r h3 hre
            exact le_trans hc (le_of_lt hgt)
          · simp at h4
            rw [h4, h1]
        · -- p is an untouched binding of a different address
          rcases List.mem_append.mp hr with h3 | h4
          · exact hmax p h1 r h3 hre
          · exfalso
            simp at h4
            rw [h4] at hre
            exact hpk hre.symm
      · intro r hr
        rw [updateRow_keys]
        rcases List.mem_append.mp hr with h1 | h2
        · exact hcover r h1
        · simp at h2
          rw [h2]
          exact List.mem_map.mpr ⟨(pyLower row.email, cur), hcurmem, rfl⟩
    · rw [if_neg hgt]
      refine ⟨hnd, hkey, ?_, ?_, ?_⟩
      · intro p hp
        exact List.mem_append_left _ (hfrom p hp)
      · intro p hp r hr hre
        rcases List.mem_append.mp hr with h3 | h4
        · exact hmax p hp r h3 hre
        · simp at h4
          subst h4
          by_cases hpk : p.1 = pyLower r.email
          · have hpc : p = (pyLower r.email, cur) := mem_of_key_eq m hnd _ cur p hcurmem hp hpk
            have hle : compositeKey r ≤ compositeKey cur := by omega
            rw [hpc]
            exact hle
          · exact absurd hre.symm hpk
      · intro r hr
        rcases List.mem_append.mp hr with h1 | h2
        · exact hcover r h1
        · simp at h2
          rw [h2]
          exact List.mem_map.mpr ⟨(pyLower row.email, cur), hcurmem, rfl⟩

theorem dedupFold_inv_aux :
    ∀ (rows proc : List ScoredRow) (m : List (String × ScoredRow)),
      DedupInv proc m → DedupInv (proc ++ rows) (rows.foldl dedupStep m)
  | [], proc, m, h => by simpa using h
  | r :: rs, proc, m, h => by
      have hstep := dedupStep_inv proc m r h
      have hrec := dedupFold_inv_aux rs (proc ++ [r]) (dedupStep m r) hstep
      simpa [List.append_assoc] using hrec

theorem dedupFold_inv (rows : List ScoredRow) : DedupInv rows (dedupFold rows) := by
  have hbase : DedupInv [] [] := by
    refine ⟨by simp, by simp, by simp, by simp, by simp⟩
  have := dedupFold_inv_aux rows [] [] hbase
  simpa [dedupFold] using this

theorem insertByScore_perm (r : ScoredRow) :
    ∀ l : List ScoredRow, (insertByScore r l).Perm (r :: l)
  | [] => List.Perm.refl _
  | y :: ys => by
      unfold insertByScore
      by_cases hc : r.sponsor_fit_score ≥ y.sponsor_fit_score
      · rw [if_pos hc]
      · rw [if_neg hc]
        exact List.Perm.trans ((insertByScore_perm r ys).cons y) (List.Perm.swap r y ys)

theorem sortByScoreDesc_perm : ∀ l : List ScoredRow, (sortByScoreDesc l).Perm l
  | [] => List.Perm.refl _
  | x :: xs => by
      unfold sortByScoreDesc
      exact List.Perm.trans (insertByScore_perm x (sortByScoreDesc xs))
        ((sortByScoreDesc_perm xs).cons x)

theorem insertByScore_pairwise (r : ScoredRow) :
    ∀ l : List ScoredRow,
      l.Pairwise (fun a b => b.sponsor_fit_score ≤ a.sponsor_fit_score) →
      (insertByScore r l).Pairwise (fun a b => b.sponsor_fit_score ≤ a.sponsor_fit_score)
  | [], _ => by simp [insertByScore]
  | y :: ys, h => by
      rw [List.pairwise_cons] at h
      obtain ⟨hy, hys⟩ := h
      unfold insertByScore
      by_cases hc : r.sponsor_fit_score ≥ y.sponsor_fit_score
      · rw [if_pos hc]
        rw [List.pairwise_cons]
        constructor
        · intro z hz
          rcases List.mem_cons.mp hz with h1 | h2
          · rw [h1]
            exact hc
          · exact le_trans (hy z h2) hc
        · exact List.pairwise_cons.mpr ⟨hy, hys⟩
      · rw [if_neg hc]
        rw [List.pairwise_cons]
        constructor
        · intro z hz
          have hz2 := (insertByScore_perm r ys).mem_iff.mp hz
          rcases List.mem_cons.mp hz2 with h1 | h2
          · rw [h1]
            omega
          · exact hy z h2
        · exact insertByScore_pairwise r ys hys

theorem sortByScoreDesc_pairwise :
    ∀ l : List ScoredRow,
      (sortByScoreDesc l).Pairwise (fun a b => b.sponsor_fit_score ≤ a.sponsor_fit_score)
  | [] => by simp [sortByScoreDesc]
  | x :: xs => by
      unfold sortByScoreDesc
      exact insertByScore_pairwise x _ (sortByScoreDesc_pairwise xs)

/-- Helper for C2: `dedupAndRank` (the dedup block of a single-site scan)
returns rows drawn from the input, exactly one per unique lower-cased
address occurring in the input, each carrying the maximal composite key
among the input's rows for its address, ordered by fit score descending;
and the two rank tables assign exactly the claimed values. -/
theorem dedupAndRank_props (rows : List ScoredRow) :
    (∀ r ∈ dedupAndRank rows, r ∈ rows) ∧
    ((dedupAndRank rows).map (fun r => pyLower r.email)).Nodup ∧
    (∀ r ∈ rows, ∃ q ∈ dedupAndRank rows, pyLower q.email = pyLower r.email) ∧
    (∀ q ∈ dedupAndRank rows, ∀ r ∈ rows,
      pyLower r.email = pyLower q.email → compositeKey r ≤ compositeKey q) ∧
    (dedupAndRank rows).Pairwise
      (fun a b => b.sponsor_fit_score ≤ a.sponsor_fit_score) ∧
    (page_type_rank "Partnerships" = 6 ∧ page_type_rank "Investor Relations" = 6 ∧
     page_type_rank "Contact" = 5 ∧ page_type_rank "About" = 3 ∧
     page_type_rank "Team" = 2 ∧ page_type_rank "Homepage" = 1 ∧
     page_type_rank "Other" = 0 ∧ page_type_rank "Legal" = -2 ∧
     page_type_rank "Careers" = -2 ∧
     rel_rank "High" = 3 ∧ rel_rank "Medium" = 2 ∧ rel_rank "Low" = 1) := by
  obtain ⟨hnd, hkey, hfrom, hmax, hcover⟩ := dedupFold_inv rows
  have hperm : (dedupAndRank rows).Perm ((dedupFold rows).map Prod.snd) :=
    sortByScoreDesc_perm _
  refine ⟨?_, ?_, ?_, ?_, sortByScoreDesc_pairwise _, by decide⟩
  · intro r hr
    have hr2 := hperm.mem_iff.mp hr
    obtain ⟨p, hp, hpe⟩ := List.mem_map.mp hr2
    rw [← hpe]
    exact hfrom p hp
  · have hmapeq : ((dedupFold rows).map Prod.snd).map (fun r => pyLower r.email) =
        (dedupFold rows).map Prod.fst := by
      rw [List.map_map]
      exact List.map_congr_left (fun p hp => (hkey p hp).symm)
    have hperm2 := hperm.map (fun r => pyLower r.email)
    rw [hmapeq] at hperm2
    exact hperm2.nodup_iff.mpr hnd
  · intro r hr
    obtain ⟨p, hp, hpe⟩ := List.mem_map.mp (hcover r hr)
    refine ⟨p.2, hperm.mem_iff.mpr (List.mem_map.mpr ⟨p, hp, rfl⟩), ?_⟩
    rw [← (hkey p hp), hpe]
  · intro q hq r hr hre
    obtain ⟨p, hp, hpe⟩ := List.mem_map.mp (hperm.mem_iff.mp hq)
    rw [← hpe]
    refine hmax p hp r hr ?_
    rw [hre, ← hpe, hkey p hp]

/-- Two rows colliding on the address ann@x.com, used to witness C2. -/
def rowContact : ScoredRow :=
  ⟨"Ann@x.com", "High", "https://x.com/contact", "Contact", "", 10, 10,
   "Corporate / Other", "Small", "UK", 0, 80, ""⟩

/-- The weaker duplicate of `rowContact` discovered on the homepage. -/
def rowHome : ScoredRow :=
  ⟨"ann@x.com", "Medium", "https://x.com", "Homepage", "", 2, 10,
   "Corporate / Other", "Small", "UK", 0, 60, ""⟩


/-! ## Site scan (src/main.py lines 789-1023) -/

/-- A candidate email row produced by one extraction strategy (the dicts of
`extract_cfemails` / `extract_mailto_with_context`, and the rows synthesised
for plain-text matches in the scan loop). -/
structure RawRow where
  email : String
  context : String
  context_score : Int
  deriving DecidableEq, Repr

/-- A row of `found_rows` (src/main.py lines 922-930). -/
structure FoundRow where
  email : String
  relevance : String
  page_url : String
  page_type : String
  context : String
  context_score : Int
  domain_bonus : Int
  deriving DecidableEq, Repr

/-- The outcome of a successful `safe_get`: final URL and body text (empty
for non-HTML responses). -/
structure FetchOk where
  finalUrl : String
  html : String
  deriving DecidableEq, Repr

/-- The library boundary of `scan_site`: HTTP retrieval (`safe_get`, a
raised exception modelled as `Except.error` carrying `str(e)`), the
BeautifulSoup-backed text and extraction helpers, the regex engine behind
`extract_emails_from_html`, and the sitemap walker `try_fetch_sitemap`.
Each oracle is a pure function of exactly the data the source passes it. -/
structure ScanEnv where
  fetch : String → Except String FetchOk
  pageText : String → String
  companyName : String → String → String
  cfRows : String → List RawRow
  mailtoRows : String → String → List RawRow
  plainEmails : String → List String
  homeLinks : String → String → List String
  sitemap : String → List String

/-- Embeds the `ScanResult` dataclass (src/main.py lines 789-804); the
Python float confidences are modelled as exact rationals. -/
structure ScanResult where
  input_url : String
  final_url : String
  domain : String
  company : String
  pages_scanned : Nat
  sponsor_lang_hits : Nat
  org_type : String
  org_conf : ℚ
  size_proxy : String
  size_conf : ℚ
  geo_hint : String
  role_hints : String
  errors : String
  emails : List ScoredRow
  deriving DecidableEq, Repr

/-- The per-row filter of the scan loop (src/main.py lines 908-930): strip,
validate, classify, drop Low relevance unless configured otherwise, drop
trap addresses, and record context and domain bonus. -/
def keptRows (allowLow : Bool) (url pt dom : String) (rows : List RawRow) : List FoundRow :=
  rows.filterMap (fun r =>
    if is_valid_email (pyStrip r.email) = true then
      if allowLow = false ∧ classify_email_relevance (pyStrip r.email) = "Low" then none
      else if is_trap_email (pyStrip r.email) = true then none
      else some ⟨pyStrip r.email, classify_email_relevance (pyStrip r.email), url, pt,
        strTake 300 r.context, r.context_score, domain_match_bonus (pyStrip r.email) dom⟩
    else none)

/-- The mutable state of the page loop (src/main.py lines 819-834, 864-934). -/
structure LoopState where
  pages_scanned : Nat
  visited : List String
  hasCareers : Bool
  hasTeam : Bool
  all_text : String
  sponsor_hits : Nat
  role_hints : String
  found : List FoundRow
  fetch_errors : List String
  deriving Repr

/-- State after a failed page fetch (src/main.py lines 869, 932-934): the
URL is marked visited and the error recorded. -/
def stAfterError (st : LoopState) (url e : String) : LoopState :=
  ⟨st.pages_scanned, url :: st.visited, st.hasCareers, st.hasTeam, st.all_text,
   st.sponsor_hits, st.role_hints, st.found,
   st.fetch_errors ++ [url ++ " -> " ++ strTake 180 e]⟩

/-- State after fetching a page with an empty body (src/main.py lines
869-885): visited, counted, page-type signals updated, nothing extracted. -/
def stAfterEmpty (st : LoopState) (url : String) : LoopState :=
  ⟨st.pages_scanned + 1, url :: st.visited,
   st.hasCareers || guess_page_type url = "Careers",
   st.hasTeam || guess_page_type url = "Team",
   st.all_text, st.sponsor_hits, st.role_hints, st.found, st.fetch_errors⟩

/-- State after processing a page with text (src/main.py lines 869-930):
text and sponsor hits accumulated, role hints filled once, and the filtered
rows of the three extraction strategies appended (plain-text rows carry the
default context score keyed by page type). -/
def stAfterPage (env : ScanEnv) (allowLow : Bool) (dom : String) (st : LoopState)
    (url html : String) : LoopState :=
  ⟨st.pages_scanned + 1, url :: st.visited,
   st.hasCareers || guess_page_type url = "Careers",
   st.hasTeam || guess_page_type url = "Team",
   st.all_text ++ " " ++ env.pageText html,
   st.sponsor_hits + sponsor_language_score (env.pageText html),
   (if st.role_hints = "" then extract_role_hints (env.pageText html) else st.role_hints),
   st.found ++ keptRows allowLow url (guess_page_type url) dom
     (env.cfRows html ++ env.mailtoRows url html
       ++ (env.plainEmails html).map (fun e =>
            (⟨e, "",
              if guess_page_type url = "Partnerships" ∨
                  guess_page_type url = "Investor Relations" ∨
                  guess_page_type url = "Contact" then 10 else 2⟩ : RawRow))),
   st.fetch_errors⟩

/-- The page loop of `scan_site` (src/main.py lines 864-934): stop at the
page budget, skip visited URLs, record per-page fetch errors and continue,
and otherwise process the page. -/
def pageLoop (env : ScanEnv) (allowLow : Bool) (dom : String) (maxPages : Nat) :
    LoopState → List String → LoopState
  | st, [] => st
  | st, url :: rest =>
      if st.pages_scanned ≥ maxPages then st
      else if url ∈ st.visited then pageLoop env allowLow dom maxPages st rest
      else
        match env.fetch url with
        | Except.error e =>
            pageLoop env allowLow dom maxPages (stAfterError st url e) rest
        | Except.ok fo =>
            if fo.html = "" then
              pageLoop env allowLow dom maxPages (stAfterEmpty st url) rest
            else
              pageLoop env allowLow dom maxPages (stAfterPage env allowLow dom st url fo.html)
                rest

/-- The per-row enrichment of the dedup loop (src/main.py lines 950-969). -/
def enrichRow (org_type size_proxy geo_hint : String) (sponsor_hits : Nat)
    (r : FoundRow) : ScoredRow :=
  ⟨r.email, r.relevance, r.page_url, r.page_type, r.context, r.context_score,
   r.domain_bonus, org_type, size_proxy, geo_hint, sponsor_hits,
   sponsor_fit_score r.relevance org_type size_proxy geo_hint sponsor_hits
     r.context_score r.domain_bonus,
   reason_string r.relevance r.page_type r.context_score r.domain_bonus⟩

/-- Embeds `scan_site` (src/main.py lines 807-1023) over the library
boundary `ScanEnv`.  The outer try/except is the `match` on the seed fetch:
in the model the only failing operation is a fetch, so a seed failure
returns the source's minimal result (with `org_conf` 0.2 and `size_conf`
0.5) and everything after a successful seed fetch is total. -/
def scan_site (env : ScanEnv) (start_url0 : String) (max_pages : Nat)
    (use_sitemap allow_low_value : Bool) : ScanResult :=
  match env.fetch (normalise_url start_url0) with
  | Except.error e =>
      { input_url := normalise_url start_url0,
        final_url := normalise_url start_url0,
        domain := domain_of (normalise_url start_url0),
        company := domain_of (normalise_url start_url0),
        pages_scanned := 0, sponsor_lang_hits := 0,
        org_type := "Corporate / Other", org_conf := 1/5,
        size_proxy := "Small", size_conf := 1/2,
        geo_hint := geo_hint_from_domain (domain_of (normalise_url start_url0)),
        role_hints := "", errors := e, emails := [] }
  | Except.ok home =>
      let base := build_base home.finalUrl
      let dom := if domain_of home.finalUrl ≠ "" then domain_of home.finalUrl
        else domain_of (normalise_url start_url0)
      let home_text := env.pageText home.html
      let targets := scanTargets base home.html (env.homeLinks home.finalUrl home.html)
        (env.sitemap base) use_sitemap
      let st := pageLoop env allow_low_value dom max_pages
        ⟨1, [], false, false, " " ++ home_text, sponsor_language_score home_text,
         extract_role_hints home_text, [], []⟩
        (finalTargets base targets)
      let org := infer_org_type st.all_text
      let size := infer_size_proxy st.hasCareers st.hasTeam st.all_text
      { input_url := normalise_url start_url0,
        final_url := home.finalUrl,
        domain := dom,
        company := env.companyName home.html dom,
        pages_scanned := st.pages_scanned,
        sponsor_lang_hits := st.sponsor_hits,
        org_type := org.1, org_conf := org.2,
        size_proxy := size.1, size_conf := size.2,
        geo_hint := geo_hint_from_domain dom,
        role_hints := st.role_hints,
        errors := if st.fetch_errors ≠ [] then
          String.intercalate "; " (st.fetch_errors.take 3) else "",
        emails := dedupAndRank (st.found.map
          (enrichRow (infer_org_type st.all_text).1
            (infer_size_proxy st.hasCareers st.hasTeam st.all_text).1
            (geo_hint_from_domain dom) st.sponsor_hits)) }

/-- C3: `scan_site` is a total function of its environment (no exception
escapes: every failure is data), and when the seed URL itself cannot be
fetched it returns the minimal ScanResult: no emails, a page count of zero
(only the failed attempt was made), and the fetch failure surfaced as the
error message. -/
theorem scan_site_initial_failure (env : ScanEnv) (u : String) (maxPages : Nat)
    (useSitemap allowLow : Bool) (msg : String)
    (hf : env.fetch (normalise_url u) = Except.error msg) (hmsg : msg ≠ "") :
    (scan_site env u maxPages useSitemap allowLow).emails = [] ∧
    (scan_site env u maxPages useSitemap allowLow).pages_scanned = 0 ∧
    (scan_site env u maxPages useSitemap allowLow).errors = msg ∧
    (scan_site env u maxPages useSitemap allowLow).errors ≠ "" := by
  unfold scan_site
  rw [hf]
  exact ⟨rfl, rfl, rfl, hmsg⟩

/-- An environment whose every request fails like an HTTP 500 after
retries. -/
def envDown : ScanEnv :=
  { fetch := fun u => Except.error ("HTTP 500 for " ++ u ++ " (final: " ++ u ++ ")"),
    pageText := fun _ => "",
    companyName := fun _ d => d,
    cfRows := fun _ => [],
    mailtoRows := fun _ _ => [],
    plainEmails := fun _ => [],
    homeLinks := fun _ _ => [],
    sitemap := fun _ => [] }

/-- Witness for C3: a site answering HTTP 500 on every request yields no
emails, zero scanned pages and a non-empty error, without raising. -/
theorem scan_site_initial_failure_witness :
    (scan_site envDown "x.com" 12 true false).emails = [] ∧
    (scan_site envDown "x.com" 12 true false).pages_scanned = 0 ∧
    (scan_site envDown "x.com" 12 true false).errors =
      "HTTP 500 for https://x.com (final: https://x.com)" ∧
    (scan_site envDown "x.com" 12 true false).errors ≠ "" :=
  scan_site_initial_failure envDown "x.com" 12 true false _ rfl (by decide)

theorem keptRows_inv (allowLow : Bool) (url pt dom : String) (rows : List RawRow) :
    ∀ r ∈ keptRows allowLow url pt dom rows,
      is_valid_email r.email = true ∧ is_trap_email r.email = false ∧
      (allowLow = false → r.relevance ≠ "Low") := by
  intro r hr
  obtain ⟨raw, hmem, heq⟩ := List.mem_filterMap.mp hr
  by_cases hv : is_valid_email (pyStrip raw.email) = true
  · rw [if_pos hv] at heq
    by_cases hlow : allowLow = false ∧ classify_email_relevance (pyStrip raw.email) = "Low"
    · rw [if_pos hlow] at heq
      exact absurd heq (by simp)
    · rw [if_neg hlow] at heq
      by_cases ht : is_trap_email (pyStrip raw.email) = true
      · rw [if_pos ht] at heq
        exact absurd heq (by simp)
      · rw [if_neg ht] at heq
        have hr2 : r = (⟨pyStrip raw.email, classify_email_relevance (pyStrip raw.email),
            url, pt, strTake 300 raw.context, raw.context_score,
            domain_match_bonus (pyStrip raw.email) dom⟩ : FoundRow) := by
          exact (Option.some.injEq _ _).mp heq.symm
        subst hr2
        refine ⟨hv, by simpa using ht, ?_⟩
        intro hal hrel
        exact hlow ⟨hal, hrel⟩
  · rw [if_neg hv] at heq
    exact absurd heq (by simp)

theorem pageLoop_found (env : ScanEnv) (allowLow : Bool) (dom : String) (maxPages : Nat) :
    ∀ (targets : List String) (st : LoopState) (r : FoundRow),
      r ∈ (pageLoop env allowLow dom maxPages st targets).found →
      r ∈ st.found ∨ (is_valid_email r.email = true ∧ is_trap_email r.email = false ∧
        (allowLow = false → r.relevance ≠ "Low"))
  | [], st, r => by
      intro hr
      exact Or.inl hr
  | url :: rest, st, r => by
      intro hr
      unfold pageLoop at hr
      by_cases hb : st.pages_scanned ≥ maxPages
      · rw [if_pos hb] at hr
        exact Or.inl hr
      · rw [if_neg hb] at hr
        by_cases hvis : url ∈ st.visited
        · rw [if_pos hvis] at hr
          exact pageLoop_found env allowLow dom maxPages rest st r hr
        · rw [if_neg hvis] at hr
          rcases hfe : env.fetch url with e | fo
          · rw [hfe] at hr
            have hr2 : r ∈ (pageLoop env allowLow dom maxPages
                (stAfterError st url e) rest).found := hr
            rcases pageLoop_found env allowLow dom maxPages rest _ r hr2 with h1 | h2
            · exact Or.inl h1
            · exact Or.inr h2
          · rw [hfe] at hr
            have hr2 : r ∈ (if fo.html = "" then
                pageLoop env allowLow dom maxPages (stAfterEmpty st url) rest
              else
                pageLoop env allowLow dom maxPages (stAfterPage env allowLow dom st url fo.html)
                  rest).found := hr
            by_cases hh : fo.html = ""
            · rw [if_pos hh] at hr2
              rcases pageLoop_found env allowLow dom maxPages rest _ r hr2 with h1 | h2
              · exact Or.inl h1
              · exact Or.inr h2
            · rw [if_neg hh] at hr2
              rcases pageLoop_found env allowLow dom maxPages rest _ r hr2 with h1 | h2
              · rcases List.mem_append.mp h1 with h3 | h4
                · exact Or.inl h3
                · exact Or.inr (keptRows_inv allowLow url (guess_page_type url) dom _ r h4)
              · exact Or.inr h2

/-- C8: every email retained in a ScanResult's list is syntactically valid
and is not a trap address, and when the low-value flag is off no email
classified Low appears — for every environment and every scan argument. -/
theorem scan_site_email_invariants (env : ScanEnv) (u : String) (maxPages : Nat)
    (useSitemap allowLow : Bool) :
    ∀ r ∈ (scan_site env u maxPages useSitemap allowLow).emails,
      is_valid_email r.email = true ∧ is_trap_email r.email = false ∧
      (allowLow = false → r.relevance ≠ "Low") := by
  intro r hr
  unfold scan_site at hr
  rcases hfe : env.fetch (normalise_url u) with msg | home
  · rw [hfe] at hr
    exact absurd hr (by simp)
  · rw [hfe] at hr
    have hr2 := (dedupAndRank_props _).1 r hr
    obtain ⟨f, hf2, hfr⟩ := List.mem_map.mp hr2
    rcases pageLoop_found env allowLow _ maxPages _ _ f hf2 with h1 | h2
    · exact absurd h1 (by simp)
    · rw [← hfr]
      exact h2

/-- An environment serving one page with a single mailto contact. -/
def envDemo : ScanEnv :=
  { fetch := fun _ => Except.ok ⟨"https://x.com", "<html>"⟩,
    pageText := fun _ => "",
    companyName := fun _ d => d,
    cfRows := fun _ => [],
    mailtoRows := fun _ _ => [⟨"partnerships@x.com", "Sponsorship enquiries", 10⟩],
    plainEmails := fun _ => [],
    homeLinks := fun _ _ => [],
    sitemap := fun _ => [] }

/-- The row the demo environment's scan retains. -/
def rowDemo : ScoredRow :=
  ⟨"partnerships@x.com", "High", "https://x.com", "Homepage", "Sponsorship enquiries",
   10, 10, "Corporate / Other", "Small", "Global / Unknown", 0, 71,
   "High relevance; found on Homepage page; moderate sponsor context; matches company domain"⟩

/-- Witness for C8: the demo scan's retained row is valid, not a trap, and
not Low relevance. -/
theorem scan_site_email_invariants_witness :
    is_valid_email rowDemo.email = true ∧ is_trap_email rowDemo.email = false ∧
      (false = false → rowDemo.relevance ≠ "Low") :=
  scan_site_email_invariants envDemo "x.com" 2 false false rowDemo (by decide)

/-- C2: for every row list, the dedup block retains rows drawn from the
input, exactly one per unique lower-cased address, each carrying the
maximal composite key `fitScore*10 + pageTypeRank + relevanceRank` among
the input's rows for its address, ordered by fit score descending, with
the rank tables assigning exactly the claimed values; consequently every
single-site scan's final email list has distinct lower-cased addresses and
is ordered by fit score descending. -/
theorem scan_dedup_rank_spec :
    (∀ rows : List ScoredRow,
      (∀ r ∈ dedupAndRank rows, r ∈ rows) ∧
      ((dedupAndRank rows).map (fun r => pyLower r.email)).Nodup ∧
      (∀ r ∈ rows, ∃ q ∈ dedupAndRank rows, pyLower q.email = pyLower r.email) ∧
      (∀ q ∈ dedupAndRank rows, ∀ r ∈ rows,
        pyLower r.email = pyLower q.email → compositeKey r ≤ compositeKey q) ∧
      (dedupAndRank rows).Pairwise
        (fun a b => b.sponsor_fit_score ≤ a.sponsor_fit_score) ∧
      (page_type_rank "Partnerships" = 6 ∧ page_type_rank "Investor Relations" = 6 ∧
       page_type_rank "Contact" = 5 ∧ page_type_rank "About" = 3 ∧
       page_type_rank "Team" = 2 ∧ page_type_rank "Homepage" = 1 ∧
       page_type_rank "Other" = 0 ∧ page_type_rank "Legal" = -2 ∧
       page_type_rank "Careers" = -2 ∧
       rel_rank "High" = 3 ∧ rel_rank "Medium" = 2 ∧ rel_rank "Low" = 1)) ∧
    (∀ (env : ScanEnv) (u : String) (maxPages : Nat) (useSitemap allowLow : Bool),
      (((scan_site env u maxPages useSitemap allowLow).emails).map
        (fun r => pyLower r.email)).Nodup ∧
      ((scan_site env u maxPages useSitemap allowLow).emails).Pairwise
        (fun a b => b.sponsor_fit_score ≤ a.sponsor_fit_score)) := by
  refine ⟨dedupAndRank_props, ?_⟩
  intro env u maxPages useSitemap allowLow
  unfold scan_site
  rcases hfe : env.fetch (normalise_url u) with msg | home
  · exact ⟨by simp, by simp⟩
  · exact ⟨(dedupAndRank_props _).2.1, (dedupAndRank_props _).2.2.2.2.1⟩

/-- Witness for C2: on the two colliding rows the retained entry dominates
the discarded one's composite key. -/
theorem scan_dedup_rank_spec_witness : compositeKey rowHome ≤ compositeKey rowContact :=
  (scan_dedup_rank_spec.1 [rowContact, rowHome]).2.2.2.1 rowContact (by decide)
    rowHome (by decide) (by decide)
